import Mathlib

/-!
Verification development for the incident-aware multimodal routing service
(Transport Graph Engine).  The Python sources in `src/app/services/transport.py`,
`src/app/services/incident_impacts.py` and `src/app/services/facebook_posts.py`
are shallowly embedded here: edge payloads become records over `ℚ` (the service
does exact arithmetic only through Python floats; rationals capture the
intended field arithmetic of multiplication, division and comparison),
stateful mutation of the networkx multigraphs becomes functional update of an
edge list, and exceptions become `Except` values.  The haversine distance,
whose trigonometric arithmetic has no exact shallow embedding, is threaded
through every definition as an explicit parameter `hav`, so that every theorem
quantifies over it.
-/

namespace TransportModel

/-- The payload attached to every edge of a mode graph.  The Graph Builder
always stores both `weight` and `default_weight` on construction, so both are
total fields here (the defensive `.get` fallbacks of `_edge_default_weight`
never fire on built graphs).  `mode` is carried by the enclosing graph. -/
structure EdgeData where
  weight : ℚ
  default_weight : ℚ
  distance_km : Option ℚ := none
  speed_kmh : Option ℚ := none
  connector : Bool := false
deriving DecidableEq

/-- A directed keyed edge of a multigraph, mirroring a networkx
`(source, target, key, data)` entry.  Parallel edges differ in `key`. -/
structure Edge (V : Type) where
  src : V
  tgt : V
  key : String
  data : EdgeData
deriving DecidableEq

/-- Geographic attributes of a stop node.  The builder stores latitude and
longitude on every node it creates. -/
structure NodeData where
  latitude : ℚ
  longitude : ℚ
deriving DecidableEq

/-- One mode graph: the `mode` label, the node list with attributes (insertion
order preserved, as in networkx) and the keyed edge list (insertion order). -/
structure ModeGraph (V : Type) where
  mode : String
  nodes : List (V × NodeData)
  edges : List (Edge V)
deriving DecidableEq

/-- The `_graphs` dictionary: mode label to graph, in insertion order. -/
abbrev Graphs (V : Type) := List (String × ModeGraph V)

/-- `WEIGHT_EPSILON` from `transport.py`. -/
def WEIGHT_EPSILON : ℚ := 1 / 1000000

/-- `_travel_time_seconds`: distance in km over speed in km/h, in seconds. -/
def travelTimeSeconds (distance_km speed_kmh : ℚ) : ℚ :=
  distance_km / speed_kmh * 3600

/-- Errors surfaced by the engine; `unknownMode`/`unknownEdge` model the
`KeyError`s and the rest model the `ValueError`s of the Python service. -/
inductive ServiceError where
  | unknownMode : String → ServiceError
  | unknownEdge : ServiceError
  | missingDistance : ServiceError
  | nonpositiveWeight : ServiceError
  | noTransitEdges : ServiceError
  | missingNode : ServiceError
  | noPath : ServiceError
  | noEdgeOnPath : ServiceError
deriving DecidableEq

instance {ε α : Type} [DecidableEq ε] [DecidableEq α] : DecidableEq (Except ε α) := fun a b =>
  match a, b with
  | .error x, .error y =>
    if h : x = y then .isTrue (h ▸ rfl) else .isFalse (fun hc => h (Except.error.inj hc))
  | .error _, .ok _ => .isFalse (fun hc => Except.noConfusion hc)
  | .ok _, .error _ => .isFalse (fun hc => Except.noConfusion hc)
  | .ok x, .ok y =>
    if h : x = y then .isTrue (h ▸ rfl) else .isFalse (fun hc => h (Except.ok.inj hc))

/-- `get_graph`: first dictionary entry carrying the requested mode. -/
def getGraph {V : Type} (gs : Graphs V) (mode : String) : Option (ModeGraph V) :=
  (gs.find? (fun p => p.1 == mode)).map Prod.snd

/-- Replace the graph stored under `mode` (dictionary assignment keeps the
entry position). -/
def setGraph {V : Type} (gs : Graphs V) (mode : String) (g : ModeGraph V) : Graphs V :=
  gs.map (fun p => if p.1 == mode then (p.1, g) else p)

/-- `graph.get_edge_data(source, target)`: the parallel edges between a node
pair, in insertion order. -/
def candidateEdges {V : Type} [DecidableEq V] (g : ModeGraph V) (s t : V) : List (Edge V) :=
  g.edges.filter (fun e => e.src == s && e.tgt == t)

/-- Key resolution of `update_edge`: first parallel edge when no key is given,
otherwise the edge carrying the requested key. -/
def resolveCandidate {V : Type} [DecidableEq V] (g : ModeGraph V) (s t : V)
    (key? : Option String) : Option (Edge V) :=
  match candidateEdges g s t, key? with
  | [], _ => none
  | e0 :: _, none => some e0
  | e0 :: rest, some k => (e0 :: rest).find? (fun e => e.key == k)

/-- Direct lookup of a fully keyed edge (`graph[source][target][key]`). -/
def findEdge {V : Type} [DecidableEq V] (g : ModeGraph V) (s t : V) (k : String) :
    Option (Edge V) :=
  g.edges.find? (fun e => e.src == s && e.tgt == t && e.key == k)

/-- Replace the payload of the first edge matching `(s, t, k)`; networkx keys
are unique per node pair, so this is the keyed in-place update of
`graph.add_edge(source, target, key=resolved_key, **edge_payload)`. -/
def replaceEdgeData {V : Type} [DecidableEq V] :
    List (Edge V) → V → V → String → EdgeData → List (Edge V)
  | [], _, _, _, _ => []
  | e :: rest, s, t, k, d =>
      if e.src == s && e.tgt == t && e.key == k then { e with data := d } :: rest
      else e :: replaceEdgeData rest s t k d

/-- The post-image returned by `update_edge` (mode, endpoints, resolved key and
the updated payload). -/
structure EdgeView (V : Type) where
  mode : String
  src : V
  tgt : V
  key : String
  data : EdgeData
deriving DecidableEq

/-- `TransportGraphService.update_edge`.  Resolution order follows the source:
unknown mode and unknown edge/key raise `KeyError`; a `speed_kmh` argument
needs `distance_km` on the edge and then derives the weight (overriding any
`weight` argument); a resolved non-positive weight raises `ValueError`; with
neither argument the payload is written back unchanged.  (The source stores
`speed_kmh` on the live payload before validating the derived weight; the pure
embedding drops that partial mutation, which no claim observes.) -/
def updateEdge {V : Type} [DecidableEq V] (gs : Graphs V) (mode : String) (s t : V)
    (key? : Option String) (weight? : Option ℚ) (speed? : Option ℚ) :
    Except ServiceError (Graphs V × EdgeView V) :=
  match getGraph gs mode with
  | none => .error (.unknownMode mode)
  | some g =>
    match candidateEdges g s t with
    | [] => .error .unknownEdge
    | _ :: _ =>
      match resolveCandidate g s t key? with
      | none => .error .unknownEdge
      | some e =>
        let step1 : Except ServiceError (EdgeData × Option ℚ) :=
          match speed? with
          | none => .ok (e.data, weight?)
          | some sp =>
            match e.data.distance_km with
            | none => .error .missingDistance
            | some dk =>
                .ok ({ e.data with speed_kmh := some sp },
                     some (travelTimeSeconds dk sp))
        match step1 with
        | .error err => .error err
        | .ok (d1, w?) =>
          match w? with
          | none =>
            let g' := { g with edges := replaceEdgeData g.edges s t e.key d1 }
            .ok (setGraph gs mode g', ⟨mode, s, t, e.key, d1⟩)
          | some w =>
            if w ≤ 0 then .error .nonpositiveWeight
            else
              let d2 := { d1 with weight := w }
              let g' := { g with edges := replaceEdgeData g.edges s t e.key d2 }
              .ok (setGraph gs mode g', ⟨mode, s, t, e.key, d2⟩)

/-- Attribute lookup for a node of a graph (`graph.nodes[v]`). -/
def nodeData {V : Type} [DecidableEq V] (g : ModeGraph V) (v : V) : Option NodeData :=
  (g.nodes.find? (fun p => p.1 == v)).map Prod.snd

/-- A first-wins argmin fold: the running best is replaced only on a strictly
smaller cost, exactly the `if dk < best: best = dk` scans of the source. -/
def argminFold {α : Type} (f : α → ℚ) (l : List α) : Option α :=
  l.foldl
    (fun best x =>
      match best with
      | none => some x
      | some b => if f x < f b then some x else best)
    none

/-- One qualifying candidate of `_closest_transit_edge_match`: a mode label,
an edge and the haversine distance from the query point to the midpoint of the
edge's endpoints. -/
structure ClosestMatch (V : Type) where
  mode : String
  src : V
  tgt : V
  key : String
  dist : ℚ
deriving DecidableEq

/-- The candidates scanned by `_closest_transit_edge_match`, in scan order:
graphs in dictionary order with walking and bike skipped, their edges in
insertion order, edges whose endpoints lack coordinates skipped. -/
def transitCandidates {V : Type} [DecidableEq V] (hav : ℚ → ℚ → ℚ → ℚ → ℚ)
    (gs : Graphs V) (lat lon : ℚ) : List (ClosestMatch V) :=
  gs.flatMap (fun p =>
    if p.1 == "walking" || p.1 == "bike" then []
    else
      p.2.edges.filterMap (fun e =>
        match nodeData p.2 e.src, nodeData p.2 e.tgt with
        | some sa, some ta =>
            some ⟨p.1, e.src, e.tgt, e.key,
                  hav lat lon ((sa.latitude + ta.latitude) / 2)
                    ((sa.longitude + ta.longitude) / 2)⟩
        | _, _ => none))

/-- `_closest_transit_edge_match`: the nested best-match loop keeps the first
candidate of strictly minimal distance, i.e. the argmin of `transitCandidates`
in scan order; `none` models the `ValueError` raised when no candidate
qualifies. -/
def closestTransitEdgeMatch {V : Type} [DecidableEq V] (hav : ℚ → ℚ → ℚ → ℚ → ℚ)
    (gs : Graphs V) (lat lon : ℚ) : Option (ClosestMatch V) :=
  argminFold (fun c => c.dist) (transitCandidates hav gs lat lon)

/-- `get_closest_transit_edge`: resolve the match, then read the edge payload
back out of the graph (the source's `graph[source][target][key]`).  The inner
`none` branches are unreachable because the match comes from the graph. -/
def getClosestTransitEdge {V : Type} [DecidableEq V] (hav : ℚ → ℚ → ℚ → ℚ → ℚ)
    (gs : Graphs V) (lat lon : ℚ) : Option (EdgeView V × ℚ) :=
  match closestTransitEdgeMatch hav gs lat lon with
  | none => none
  | some m =>
    match getGraph gs m.mode with
    | none => none
    | some g =>
      match findEdge g m.src m.tgt m.key with
      | none => none
      | some e => some (⟨m.mode, m.src, m.tgt, m.key, e.data⟩, m.dist)

/-- `update_closest_transit_edge`: validate the weight, resolve the nearest
transit edge and delegate to `update_edge`. -/
def updateClosestTransitEdge {V : Type} [DecidableEq V] (hav : ℚ → ℚ → ℚ → ℚ → ℚ)
    (gs : Graphs V) (lat lon weight : ℚ) :
    Except ServiceError (Graphs V × EdgeView V) :=
  if weight ≤ 0 then .error .nonpositiveWeight
  else
    match closestTransitEdgeMatch hav gs lat lon with
    | none => .error .noTransitEdges
    | some m => updateEdge gs m.mode m.src m.tgt (some m.key) (some weight) none

theorem argminFold_go_mem {α : Type} (f : α → ℚ) (l : List α) (acc : Option α) (x : α)
    (hx : l.foldl
        (fun best y =>
          match best with
          | none => some y
          | some b => if f y < f b then some y else best)
        acc = some x) :
    x ∈ l ∨ acc = some x := by
  induction l generalizing acc with
  | nil => exact Or.inr hx
  | cons y ys ih =>
    simp only [List.foldl_cons] at hx
    rcases ih _ hx with h | h
    · exact Or.inl (List.mem_cons_of_mem _ h)
    · match acc with
      | none =>
        simp only [Option.some.injEq] at h
        exact Or.inl (h ▸ List.mem_cons_self y ys)
      | some b =>
        by_cases hlt : f y < f b
        · simp only [hlt, if_pos] at h
          simp only [Option.some.injEq] at h
          exact Or.inl (h ▸ List.mem_cons_self y ys)
        · simp only [hlt, if_neg, not_false_iff] at h
          exact Or.inr h

theorem argminFold_mem {α : Type} (f : α → ℚ) (l : List α) (x : α)
    (hx : argminFold f l = some x) : x ∈ l := by
  rcases argminFold_go_mem f l none x hx with h | h
  · exact h
  · exact absurd h (by simp)

theorem argminFold_go_le {α : Type} (f : α → ℚ) (l : List α) (acc : Option α) (x : α)
    (hx : l.foldl
        (fun best y =>
          match best with
          | none => some y
          | some b => if f y < f b then some y else best)
        acc = some x) :
    (∀ y ∈ l, f x ≤ f y) ∧ (∀ a, acc = some a → f x ≤ f a) := by
  induction l generalizing acc with
  | nil =>
    refine ⟨by simp, fun a ha => ?_⟩
    rw [ha] at hx
    simp only [List.foldl_nil, Option.some.injEq] at hx
    exact le_of_eq (by rw [hx])
  | cons y ys ih =>
    simp only [List.foldl_cons] at hx
    have step : ∀ z, (match acc with
        | none => some y
        | some b => if f y < f b then some y else some b) = some z →
        f z ≤ f y ∧ ∀ a, acc = some a → f z ≤ f a := by
      intro z hz
      match acc with
      | none =>
        simp only [Option.some.injEq] at hz
        exact ⟨le_of_eq (by rw [hz]), by simp⟩
      | some b =>
        by_cases hlt : f y < f b
        · simp only [hlt, if_pos, Option.some.injEq] at hz
          subst hz
          exact ⟨le_rfl, fun a ha => by
            simp only [Option.some.injEq] at ha
            exact ha ▸ le_of_lt hlt⟩
        · simp only [hlt, if_neg, not_false_iff, Option.some.injEq] at hz
          subst hz
          exact ⟨le_of_not_lt hlt, fun a ha => by
            simp only [Option.some.injEq] at ha
            exact ha ▸ le_rfl⟩
    obtain ⟨hys, hacc⟩ := ih _ hx
    have hstep2 : ∀ z, (match acc with
        | none => some y
        | some b => if f y < f b then some y else acc) = some z →
        f z ≤ f y ∧ ∀ a, acc = some a → f z ≤ f a := by
      intro z hz
      refine step z ?_
      match acc with
      | none => exact hz
      | some b =>
        by_cases hlt : f y < f b <;> simp only [hlt, if_pos, if_neg, not_false_iff] at hz ⊢ <;>
          exact hz
    have hmid_some : ∃ z, (match acc with
        | none => some y
        | some b => if f y < f b then some y else acc) = some z := by
      match acc with
      | none => exact ⟨y, rfl⟩
      | some b =>
        by_cases hlt : f y < f b
        · exact ⟨y, by simp [hlt]⟩
        · exact ⟨b, by simp [hlt]⟩
    obtain ⟨z, hmid⟩ := hmid_some
    have hxz : f x ≤ f z := hacc z hmid
    refine ⟨fun w hw => ?_, fun a ha => ?_⟩
    · rcases List.mem_cons.mp hw with rfl | hw
      · exact le_trans hxz (hstep2 z hmid).1
      · exact hys w hw
    · exact le_trans hxz ((hstep2 z hmid).2 a ha)

theorem argminFold_le {α : Type} (f : α → ℚ) (l : List α) (x : α)
    (hx : argminFold f l = some x) : ∀ y ∈ l, f x ≤ f y :=
  (argminFold_go_le f l none x hx).1

theorem argminFold_go_ne_none {α : Type} (f : α → ℚ) (l : List α) (acc : α) :
    l.foldl
      (fun best y =>
        match best with
        | none => some y
        | some b => if f y < f b then some y else best)
      (some acc) ≠ none := by
  induction l generalizing acc with
  | nil => simp
  | cons z zs ih =>
    simp only [List.foldl_cons]
    by_cases hlt : f z < f acc
    · simpa [hlt] using ih z
    · simpa [hlt] using ih acc

theorem argminFold_eq_none {α : Type} (f : α → ℚ) (l : List α) :
    argminFold f l = none ↔ l = [] := by
  constructor
  · intro h
    cases l with
    | nil => rfl
    | cons y ys =>
      exact absurd (by simpa [argminFold] using h) (argminFold_go_ne_none f ys y)
  · rintro rfl
    rfl

theorem mem_transitCandidates_intro {V : Type} [DecidableEq V] (hav : ℚ → ℚ → ℚ → ℚ → ℚ)
    (gs : Graphs V) (lat lon : ℚ) (mode : String) (g : ModeGraph V) (e : Edge V)
    (sa ta : NodeData) (hg : (mode, g) ∈ gs) (hw : mode ≠ "walking") (hb : mode ≠ "bike")
    (he : e ∈ g.edges) (hsa : nodeData g e.src = some sa) (hta : nodeData g e.tgt = some ta) :
    (⟨mode, e.src, e.tgt, e.key,
      hav lat lon ((sa.latitude + ta.latitude) / 2) ((sa.longitude + ta.longitude) / 2)⟩ :
      ClosestMatch V) ∈ transitCandidates hav gs lat lon := by
  unfold transitCandidates
  refine List.mem_flatMap.mpr ⟨(mode, g), hg, ?_⟩
  have hcond : ((mode == "walking" || mode == "bike") = true) = False := by
    simp [hw, hb]
  rw [if_neg (by simp [hw, hb])]
  exact List.mem_filterMap.mpr ⟨e, he, by rw [hsa, hta]⟩

theorem mem_transitCandidates_elim {V : Type} [DecidableEq V] (hav : ℚ → ℚ → ℚ → ℚ → ℚ)
    (gs : Graphs V) (lat lon : ℚ) (c : ClosestMatch V)
    (hc : c ∈ transitCandidates hav gs lat lon) :
    ∃ g : ModeGraph V, (c.mode, g) ∈ gs ∧ c.mode ≠ "walking" ∧ c.mode ≠ "bike" ∧
      ∃ e ∈ g.edges, e.src = c.src ∧ e.tgt = c.tgt ∧ e.key = c.key ∧
        ∃ sa ta : NodeData, nodeData g e.src = some sa ∧ nodeData g e.tgt = some ta ∧
          c.dist = hav lat lon ((sa.latitude + ta.latitude) / 2)
            ((sa.longitude + ta.longitude) / 2) := by
  unfold transitCandidates at hc
  obtain ⟨⟨mode, g⟩, hg, hmem⟩ := List.mem_flatMap.mp hc
  by_cases hfoot : (mode == "walking" || mode == "bike") = true
  · rw [if_pos hfoot] at hmem
    exact absurd hmem (List.not_mem_nil c)
  · rw [if_neg hfoot] at hmem
    obtain ⟨e, he, heq⟩ := List.mem_filterMap.mp hmem
    have hw : mode ≠ "walking" := by
      intro h
      exact hfoot (by simp [h])
    have hb : mode ≠ "bike" := by
      intro h
      exact hfoot (by simp [h])
    rcases hsa : nodeData g e.src with _ | sa
    · rw [hsa] at heq
      rcases nodeData g e.tgt with _ | ta <;> simp at heq
    · rcases hta : nodeData g e.tgt with _ | ta
      · rw [hsa, hta] at heq
        simp at heq
      · rw [hsa, hta] at heq
        simp only [Option.some.injEq] at heq
        subst heq
        exact ⟨g, hg, hw, hb, e, he, rfl, rfl, rfl, sa, ta, hsa, hta, rfl⟩

/-- C6: `_closest_transit_edge_match` returns a candidate whose mode is
neither walking nor bike, which is an actual edge of one of the scanned
graphs, and whose haversine distance to the midpoint of its endpoints is
minimal among every qualifying edge; it signals `NoTransitEdges` (the `none`
case) exactly when no graph outside the walking and bike modes carries an edge
with located endpoints.  Stated for every distance function `hav`, hence in
particular for the haversine distance. -/
theorem closest_transit_edge_correct {V : Type} [DecidableEq V]
    (hav : ℚ → ℚ → ℚ → ℚ → ℚ) (gs : Graphs V) (lat lon : ℚ) :
    (∀ m : ClosestMatch V, closestTransitEdgeMatch hav gs lat lon = some m →
      (m.mode ≠ "walking" ∧ m.mode ≠ "bike")
      ∧ (∃ g : ModeGraph V, (m.mode, g) ∈ gs ∧
          ∃ e ∈ g.edges, e.src = m.src ∧ e.tgt = m.tgt ∧ e.key = m.key)
      ∧ (∀ (mode : String) (g : ModeGraph V) (e : Edge V) (sa ta : NodeData),
          (mode, g) ∈ gs → mode ≠ "walking" → mode ≠ "bike" → e ∈ g.edges →
          nodeData g e.src = some sa → nodeData g e.tgt = some ta →
          m.dist ≤ hav lat lon ((sa.latitude + ta.latitude) / 2)
            ((sa.longitude + ta.longitude) / 2)))
    ∧ (closestTransitEdgeMatch hav gs lat lon = none ↔
        ∀ (mode : String) (g : ModeGraph V), (mode, g) ∈ gs →
          mode ≠ "walking" → mode ≠ "bike" → ∀ e ∈ g.edges,
            nodeData g e.src = none ∨ nodeData g e.tgt = none) := by
  constructor
  · intro m hm
    have hmem := argminFold_mem _ _ _ hm
    obtain ⟨g, hg, hw, hb, e, he, hsrc, htgt, hkey, _⟩ :=
      mem_transitCandidates_elim hav gs lat lon m hmem
    refine ⟨⟨hw, hb⟩, ⟨g, hg, e, he, hsrc, htgt, hkey⟩, ?_⟩
    intro mode g' e' sa ta hg' hw' hb' he' hsa hta
    exact argminFold_le _ _ _ hm _
      (mem_transitCandidates_intro hav gs lat lon mode g' e' sa ta hg' hw' hb' he' hsa hta)
  · rw [show closestTransitEdgeMatch hav gs lat lon =
        argminFold (fun c => c.dist) (transitCandidates hav gs lat lon) from rfl,
      argminFold_eq_none]
    constructor
    · intro hnil mode g hg hw hb e he
      by_contra hcn
      push_neg at hcn
      rcases hsa : nodeData g e.src with _ | sa
      · exact hcn.1 hsa
      rcases hta : nodeData g e.tgt with _ | ta
      · exact hcn.2 hta
      have := mem_transitCandidates_intro hav gs lat lon mode g e sa ta hg hw hb he hsa hta
      rw [hnil] at this
      exact List.not_mem_nil _ this
    · intro hall
      rcases hne : transitCandidates hav gs lat lon with _ | ⟨c, cs⟩
      · rfl
      · exfalso
        have hc : c ∈ transitCandidates hav gs lat lon := by
          rw [hne]
          exact List.mem_cons_self c cs
        obtain ⟨g, hg, hw, hb, e, he, _, _, _, sa, ta, hsa, hta, _⟩ :=
          mem_transitCandidates_elim hav gs lat lon c hc
        rcases hall c.mode g hg hw hb e he with h | h
        · rw [hsa] at h
          exact Option.some_ne_none sa h
        · rw [hta] at h
          exact Option.some_ne_none ta h

theorem find?_filter_comm {α : Type} (p q : α → Bool) (l : List α) :
    (l.filter p).find? q = l.find? (fun x => p x && q x) := by
  induction l with
  | nil => rfl
  | cons x xs ih =>
    by_cases hp : p x
    · by_cases hq : q x
      · simp [List.filter_cons, hp, List.find?_cons, hq]
      · simp [List.filter_cons, hp, List.find?_cons, hq, ih]
    · simp [List.filter_cons, hp, List.find?_cons, ih]

theorem resolveCandidate_some_eq_findEdge {V : Type} [DecidableEq V] (g : ModeGraph V)
    (s t : V) (k : String) : resolveCandidate g s t (some k) = findEdge g s t k := by
  unfold resolveCandidate findEdge
  rw [← find?_filter_comm (fun e => e.src == s && e.tgt == t) (fun e => e.key == k) g.edges]
  cases hc : candidateEdges g s t with
  | nil =>
    unfold candidateEdges at hc
    rw [hc]
    rfl
  | cons e0 rest =>
    unfold candidateEdges at hc
    rw [hc]

theorem findEdge_mem_props {V : Type} [DecidableEq V] (g : ModeGraph V) (s t : V)
    (k : String) (e : Edge V) (h : findEdge g s t k = some e) :
    e ∈ g.edges ∧ e.src = s ∧ e.tgt = t ∧ e.key = k := by
  have hmem := List.mem_of_find?_eq_some h
  have hpred := List.find?_some h
  simp only [Bool.and_eq_true, beq_iff_eq] at hpred
  exact ⟨hmem, hpred.1.1, hpred.1.2, hpred.2⟩

theorem replaceEdgeData_of_find {V : Type} [DecidableEq V] (l : List (Edge V)) (s t : V)
    (k : String) (d : EdgeData) (e : Edge V)
    (h : l.find? (fun x => x.src == s && x.tgt == t && x.key == k) = some e) :
    (replaceEdgeData l s t k d).find? (fun x => x.src == s && x.tgt == t && x.key == k) =
      some { e with data := d } := by
  induction l with
  | nil => simp at h
  | cons x xs ih =>
    by_cases hx : (x.src == s && x.tgt == t && x.key == k) = true
    · simp only [List.find?_cons, hx, cond_true, Option.some.injEq] at h
      subst h
      unfold replaceEdgeData
      rw [if_pos hx]
      simp only [List.find?_cons, hx, cond_true]
    · have hx' : (x.src == s && x.tgt == t && x.key == k) = false := by
        simpa using hx
      simp only [List.find?_cons, hx', cond_false] at h
      unfold replaceEdgeData
      rw [if_neg hx]
      simp only [List.find?_cons, hx', cond_false]
      exact ih h

theorem replaceEdgeData_other_triple {V : Type} [DecidableEq V] (l : List (Edge V))
    (s t : V) (k : String) (d : EdgeData) (s' t' : V) (k' : String)
    (hne : ¬ (s' = s ∧ t' = t ∧ k' = k)) :
    (replaceEdgeData l s t k d).find? (fun x => x.src == s' && x.tgt == t' && x.key == k') =
      l.find? (fun x => x.src == s' && x.tgt == t' && x.key == k') := by
  induction l with
  | nil => rfl
  | cons x xs ih =>
    by_cases hx : (x.src == s && x.tgt == t && x.key == k) = true
    · unfold replaceEdgeData
      rw [if_pos hx]
      simp only [Bool.and_eq_true, beq_iff_eq] at hx
      have hx' : (x.src == s' && x.tgt == t' && x.key == k') = false := by
        by_contra hcon
        simp only [Bool.not_eq_false, Bool.and_eq_true, beq_iff_eq] at hcon
        exact hne ⟨hcon.1.1 ▸ hx.1.1, hcon.1.2 ▸ hx.1.2, hcon.2 ▸ hx.2⟩
      simp only [List.find?_cons, hx', cond_false]
    · unfold replaceEdgeData
      rw [if_neg hx]
      by_cases hx' : (x.src == s' && x.tgt == t' && x.key == k') = true
      · simp only [List.find?_cons, hx', cond_true]
      · have hx2 : (x.src == s' && x.tgt == t' && x.key == k') = false := by
          simpa using hx'
        simp only [List.find?_cons, hx2, cond_false]
        exact ih

theorem replaceEdgeData_mem {V : Type} [DecidableEq V] (l : List (Edge V)) (s t : V)
    (k : String) (d : EdgeData) (x : Edge V) (hx : x ∈ replaceEdgeData l s t k d) :
    x ∈ l ∨ ∃ e ∈ l, e.src = s ∧ e.tgt = t ∧ e.key = k ∧ x = { e with data := d } := by
  induction l with
  | nil => simp [replaceEdgeData] at hx
  | cons y ys ih =>
    unfold replaceEdgeData at hx
    by_cases hy : (y.src == s && y.tgt == t && y.key == k) = true
    · rw [if_pos hy] at hx
      rcases List.mem_cons.mp hx with rfl | hx
      · simp only [Bool.and_eq_true, beq_iff_eq] at hy
        exact Or.inr ⟨y, List.mem_cons_self y ys, hy.1.1, hy.1.2, hy.2, rfl⟩
      · exact Or.inl (List.mem_cons_of_mem _ hx)
    · rw [if_neg hy] at hx
      rcases List.mem_cons.mp hx with rfl | hx
      · exact Or.inl (List.mem_cons_self _ _)
      · rcases ih hx with h | ⟨e, he, hp⟩
        · exact Or.inl (List.mem_cons_of_mem _ h)
        · exact Or.inr ⟨e, List.mem_cons_of_mem _ he, hp⟩

theorem replaceEdgeData_map_proj {V : Type} {β : Type} [DecidableEq V]
    (proj : Edge V → β) (l : List (Edge V)) (s t : V) (k : String) (d : EdgeData)
    (hproj : ∀ x ∈ l, (x.src == s && x.tgt == t && x.key == k) = true →
      proj { x with data := d } = proj x) :
    (replaceEdgeData l s t k d).map proj = l.map proj := by
  induction l with
  | nil => rfl
  | cons x xs ih =>
    unfold replaceEdgeData
    by_cases hx : (x.src == s && x.tgt == t && x.key == k) = true
    · rw [if_pos hx]
      simp only [List.map_cons]
      rw [hproj x (List.mem_cons_self x xs) hx]
    · rw [if_neg hx]
      simp only [List.map_cons]
      rw [ih (fun y hy hm => hproj y (List.mem_cons_of_mem _ hy) hm)]

theorem getGraph_setGraph_self {V : Type} (gs : Graphs V) (mode : String)
    (g g' : ModeGraph V) (h : getGraph gs mode = some g) :
    getGraph (setGraph gs mode g') mode = some g' := by
  unfold getGraph setGraph at *
  induction gs with
  | nil => simp at h
  | cons p ps ih =>
    by_cases hp : (p.1 == mode) = true
    · simp only [List.map_cons, if_pos hp]
      simp only [List.find?_cons, hp, cond_true]
      rfl
    · have hp' : (p.1 == mode) = false := by simpa using hp
      simp only [List.map_cons, if_neg hp]
      simp only [List.find?_cons, hp', cond_false] at h ⊢
      exact ih h

theorem getGraph_setGraph_other {V : Type} (gs : Graphs V) (mode m2 : String)
    (g' : ModeGraph V) (hne : m2 ≠ mode) :
    getGraph (setGraph gs mode g') m2 = getGraph gs m2 := by
  unfold getGraph setGraph
  induction gs with
  | nil => rfl
  | cons p ps ih =>
    by_cases hp : (p.1 == mode) = true
    · simp only [List.map_cons, if_pos hp]
      have hp' : (p.1 == m2) = false := by
        simp only [beq_iff_eq] at hp
        simp only [beq_eq_false_iff_ne, ne_eq]
        intro hcon
        exact hne (hcon ▸ hp)
      simp only [List.find?_cons, hp', cond_false]
      exact ih
    · simp only [List.map_cons, if_neg hp]
      by_cases hp' : (p.1 == m2) = true
      · simp only [List.find?_cons, hp', cond_true]
      · have hp2 : (p.1 == m2) = false := by simpa using hp'
        simp only [List.find?_cons, hp2, cond_false]
        exact ih

theorem setGraph_mem {V : Type} (gs : Graphs V) (mode : String) (g' : ModeGraph V)
    (p : String × ModeGraph V) (hp : p ∈ setGraph gs mode g') :
    p ∈ gs ∨ (p.1 = mode ∧ p.2 = g') := by
  unfold setGraph at hp
  obtain ⟨q, hq, hqe⟩ := List.mem_map.mp hp
  by_cases hcond : (q.1 == mode) = true
  · rw [if_pos hcond] at hqe
    subst hqe
    simp only [beq_iff_eq] at hcond
    exact Or.inr ⟨hcond, rfl⟩
  · rw [if_neg hcond] at hqe
    subst hqe
    exact Or.inl hq

/-- The current weight stored for a keyed edge of a mode graph. -/
def weightAt {V : Type} [DecidableEq V] (gs : Graphs V) (mode : String) (s t : V)
    (k : String) : Option ℚ :=
  (getGraph gs mode).bind (fun g => (findEdge g s t k).map (fun e => e.data.weight))

/-- The baseline weight stored for a keyed edge of a mode graph. -/
def defaultWeightAt {V : Type} [DecidableEq V] (gs : Graphs V) (mode : String) (s t : V)
    (k : String) : Option ℚ :=
  (getGraph gs mode).bind (fun g => (findEdge g s t k).map (fun e => e.data.default_weight))

/-- Executing `update_edge` with an explicit key and a positive weight on an
existing edge: the call succeeds, the addressed edge now carries exactly the
requested weight, its baseline is untouched, and every other keyed edge and
every other mode graph read back unchanged. -/
theorem updateEdge_ok_spec {V : Type} [DecidableEq V] (gs : Graphs V) (mode : String)
    (s t : V) (k : String) (w : ℚ) (g : ModeGraph V) (e : Edge V)
    (hg : getGraph gs mode = some g) (he : findEdge g s t k = some e) (hw : 0 < w) :
    updateEdge gs mode s t (some k) (some w) none =
      .ok (setGraph gs mode
            { g with edges := replaceEdgeData g.edges s t k { e.data with weight := w } },
          ⟨mode, s, t, k, { e.data with weight := w }⟩) ∧
    weightAt (setGraph gs mode
        { g with edges := replaceEdgeData g.edges s t k { e.data with weight := w } })
        mode s t k = some w ∧
    defaultWeightAt (setGraph gs mode
        { g with edges := replaceEdgeData g.edges s t k { e.data with weight := w } })
        mode s t k = some e.data.default_weight := by
  have hkey : e.key = k := (findEdge_mem_props g s t k e he).2.2.2
  have hcands : candidateEdges g s t ≠ [] := by
    intro hnil
    have : resolveCandidate g s t (some k) = none := by
      unfold resolveCandidate
      rw [hnil]
    rw [resolveCandidate_some_eq_findEdge, he] at this
    exact Option.some_ne_none e this
  have hres : resolveCandidate g s t (some k) = some e := by
    rw [resolveCandidate_some_eq_findEdge, he]
  refine ⟨?_, ?_, ?_⟩
  · unfold updateEdge
    rw [hg]
    cases hc : candidateEdges g s t with
    | nil => exact absurd hc hcands
    | cons e0 rest =>
      simp only [hg, hc, hres]
      rw [if_neg (not_le.mpr hw), hkey]
  · unfold weightAt
    rw [getGraph_setGraph_self gs mode g _ hg]
    simp only [Option.some_bind]
    have := replaceEdgeData_of_find g.edges s t k { e.data with weight := w } e he
    unfold findEdge
    simp only [this]
    rfl
  · unfold defaultWeightAt
    rw [getGraph_setGraph_self gs mode g _ hg]
    simp only [Option.some_bind]
    have := replaceEdgeData_of_find g.edges s t k { e.data with weight := w } e he
    unfold findEdge
    simp only [this]
    rfl

theorem getGraph_mem {V : Type} (gs : Graphs V) (mode : String) (g : ModeGraph V)
    (h : getGraph gs mode = some g) : (mode, g) ∈ gs := by
  unfold getGraph at h
  cases hf : gs.find? (fun p => p.1 == mode) with
  | none => rw [hf] at h; simp at h
  | some p =>
    rw [hf] at h
    simp only [Option.map] at h
    have hmem := List.mem_of_find?_eq_some hf
    have hpred := List.find?_some hf
    simp only [beq_iff_eq] at hpred
    have : p = (mode, g) := by
      rcases p with ⟨pm, pg⟩
      simp only [Option.some.injEq] at h
      simp only at hpred
      rw [hpred, h]
    exact this ▸ hmem

theorem resolveCandidate_mem {V : Type} [DecidableEq V] (g : ModeGraph V) (s t : V)
    (key? : Option String) (e : Edge V) (h : resolveCandidate g s t key? = some e) :
    e ∈ g.edges ∧ e.src = s ∧ e.tgt = t := by
  unfold resolveCandidate at h
  cases hc : candidateEdges g s t with
  | nil => rw [hc] at h; simp at h
  | cons e0 rest =>
    rw [hc] at h
    have hsub : ∀ x ∈ candidateEdges g s t,
        x ∈ g.edges ∧ x.src = s ∧ x.tgt = t := by
      intro x hx
      unfold candidateEdges at hx
      have hmem := List.mem_of_mem_filter hx
      have hpred := List.of_mem_filter hx
      simp only [Bool.and_eq_true, beq_iff_eq] at hpred
      exact ⟨hmem, hpred.1, hpred.2⟩
    cases key? with
    | none =>
      simp only [Option.some.injEq] at h
      exact hsub e (h ▸ hc ▸ List.mem_cons_self e0 rest)
    | some k =>
      have := List.mem_of_find?_eq_some h
      exact hsub e (hc ▸ this)

theorem resolveCandidate_findEdge_self {V : Type} [DecidableEq V] (g : ModeGraph V)
    (s t : V) (key? : Option String) (e : Edge V)
    (h : resolveCandidate g s t key? = some e) : findEdge g s t e.key = some e := by
  cases key? with
  | some k =>
    rw [resolveCandidate_some_eq_findEdge] at h
    have hk : e.key = k := (findEdge_mem_props g s t k e h).2.2.2
    rw [hk]
    exact h
  | none =>
    unfold resolveCandidate at h
    cases hc : candidateEdges g s t with
    | nil => rw [hc] at h; simp at h
    | cons e0 rest =>
      rw [hc] at h
      simp only [Option.some.injEq] at h
      rw [h] at hc
      unfold candidateEdges at hc
      unfold findEdge
      -- the first pair match is also the first triple match for its own key
      have hfirst : ∀ l : List (Edge V),
          l.filter (fun x => x.src == s && x.tgt == t) = e :: rest →
          l.find? (fun x => x.src == s && x.tgt == t && x.key == e.key) = some e := by
        intro l
        induction l with
        | nil => intro hnil; simp at hnil
        | cons x xs ih =>
          intro hfil
          by_cases hx : (x.src == s && x.tgt == t) = true
          · simp only [List.filter_cons, hx, if_true] at hfil
            simp only [List.cons.injEq] at hfil
            obtain ⟨rfl, _⟩ := hfil
            have hx3 : (x.src == s && x.tgt == t && x.key == x.key) = true := by
              simp only [Bool.and_eq_true] at hx ⊢
              exact ⟨hx, by simp⟩
            simp only [List.find?_cons, hx3, cond_true]
          · have hx' : (x.src == s && x.tgt == t) = false := by simpa using hx
            simp only [List.filter_cons, hx', Bool.false_eq_true, if_false] at hfil
            have hx3 : (x.src == s && x.tgt == t && x.key == e.key) = false := by
              simp [hx']
            simp only [List.find?_cons, hx3, cond_false]
            exact ih hfil
      exact hfirst g.edges hc

theorem replaceEdgeData_self_data {V : Type} [DecidableEq V] (l : List (Edge V))
    (s t : V) (e : Edge V)
    (h : l.find? (fun x => x.src == s && x.tgt == t && x.key == e.key) = some e) :
    replaceEdgeData l s t e.key e.data = l := by
  induction l with
  | nil => rfl
  | cons x xs ih =>
    by_cases hx : (x.src == s && x.tgt == t && x.key == e.key) = true
    · simp only [List.find?_cons, hx, cond_true, Option.some.injEq] at h
      subst h
      unfold replaceEdgeData
      rw [if_pos hx]
    · have hx' : (x.src == s && x.tgt == t && x.key == e.key) = false := by
        simpa using hx
      simp only [List.find?_cons, hx', cond_false] at h
      unfold replaceEdgeData
      rw [if_neg hx]
      rw [ih h]

/-- Full inversion of a successful `update_edge` call: the returned state is
the input with a single keyed payload replaced, the new payload keeps the
baseline, and its weight is either validated positive or untouched. -/
theorem updateEdge_ok_inv {V : Type} [DecidableEq V] (gs : Graphs V) (mode : String)
    (s t : V) (key? : Option String) (weight? speed? : Option ℚ) (gs' : Graphs V)
    (view : EdgeView V)
    (h : updateEdge gs mode s t key? weight? speed? = .ok (gs', view)) :
    ∃ (g : ModeGraph V) (e : Edge V) (d' : EdgeData),
      getGraph gs mode = some g ∧ resolveCandidate g s t key? = some e ∧
      gs' = setGraph gs mode { g with edges := replaceEdgeData g.edges s t e.key d' } ∧
      view = ⟨mode, s, t, e.key, d'⟩ ∧
      d'.default_weight = e.data.default_weight ∧
      (0 < d'.weight ∨ d'.weight = e.data.weight) := by
  unfold updateEdge at h
  cases hg : getGraph gs mode with
  | none =>
    simp only [hg] at h
    exact Except.noConfusion h
  | some g =>
    simp only [hg] at h
    cases hc : candidateEdges g s t with
    | nil =>
      simp only [hc] at h
      exact Except.noConfusion h
    | cons e0 rest =>
      simp only [hc] at h
      cases hr : resolveCandidate g s t key? with
      | none =>
        simp only [hr] at h
        exact Except.noConfusion h
      | some e =>
        simp only [hr] at h
        refine ⟨g, e, ?_⟩
        cases speed? with
        | none =>
          cases weight? with
          | none =>
            simp only [Except.ok.injEq, Prod.mk.injEq] at h
            exact ⟨e.data, rfl, hr, h.1.symm, h.2.symm, rfl, Or.inr rfl⟩
          | some w =>
            by_cases hw : w ≤ 0
            · simp only [if_pos hw] at h
              exact Except.noConfusion h
            · simp only [if_neg hw, Except.ok.injEq, Prod.mk.injEq] at h
              exact ⟨{ e.data with weight := w }, rfl, hr, h.1.symm, h.2.symm, rfl,
                Or.inl (lt_of_not_le hw)⟩
        | some sp =>
          cases hd : e.data.distance_km with
          | none =>
            simp only [hd] at h
            exact Except.noConfusion h
          | some dk =>
            simp only [hd] at h
            by_cases hw : travelTimeSeconds dk sp ≤ 0
            · simp only [if_pos hw] at h
              exact Except.noConfusion h
            · simp only [if_neg hw, Except.ok.injEq, Prod.mk.injEq] at h
              exact ⟨{ weight := travelTimeSeconds dk sp,
                       default_weight := e.data.default_weight,
                       distance_km := some dk,
                       speed_kmh := some sp,
                       connector := e.data.connector },
                rfl, hr, h.1.symm, h.2.symm, rfl, Or.inl (lt_of_not_le hw)⟩

theorem updateEdge_preserves {V : Type} [DecidableEq V] (gs : Graphs V) (mode : String)
    (s t : V) (key? : Option String) (weight? speed? : Option ℚ) (gs' : Graphs V)
    (view : EdgeView V)
    (h : updateEdge gs mode s t key? weight? speed? = .ok (gs', view))
    (hpos : ∀ p ∈ gs, ∀ x ∈ p.2.edges, 0 < x.data.weight ∧ 0 < x.data.default_weight) :
    (∀ p ∈ gs', ∀ x ∈ p.2.edges, 0 < x.data.weight ∧ 0 < x.data.default_weight) ∧
    (∀ (m : String) (s' t' : V) (k' : String),
      defaultWeightAt gs' m s' t' k' = defaultWeightAt gs m s' t' k') := by
  obtain ⟨g, e, d', hg, hr, hgs', hview, hdef, hwpos⟩ :=
    updateEdge_ok_inv gs mode s t key? weight? speed? gs' view h
  have hgmem : (mode, g) ∈ gs := getGraph_mem _ _ _ hg
  have hemem := (resolveCandidate_mem g s t key? e hr).1
  have hepos := hpos (mode, g) hgmem e hemem
  have hd'w : 0 < d'.weight := by
    rcases hwpos with hpos' | heq
    · exact hpos'
    · rw [heq]
      exact hepos.1
  have hd'd : 0 < d'.default_weight := by
    rw [hdef]
    exact hepos.2
  constructor
  · intro p hp x hx
    rw [hgs'] at hp
    rcases setGraph_mem _ _ _ p hp with hpin | ⟨hp1, hp2⟩
    · exact hpos p hpin x hx
    · rw [hp2] at hx
      simp only at hx
      rcases replaceEdgeData_mem _ _ _ _ _ x hx with hold | ⟨e2, he2, _, _, _, hxeq⟩
      · exact hpos (mode, g) hgmem x hold
      · rw [hxeq]
        exact ⟨hd'w, hd'd⟩
  · intro m s' t' k'
    rw [hgs']
    by_cases hm : m = mode
    · subst hm
      unfold defaultWeightAt
      rw [getGraph_setGraph_self gs m g _ hg, hg]
      simp only [Option.some_bind]
      by_cases htrip : s' = s ∧ t' = t ∧ k' = e.key
      · obtain ⟨h1, h2, h3⟩ := htrip
        rw [h1, h2, h3]
        unfold findEdge
        simp only
        rw [replaceEdgeData_of_find g.edges s t e.key d' e
          (resolveCandidate_findEdge_self g s t key? e hr)]
        have hre : findEdge g s t e.key = some e :=
          resolveCandidate_findEdge_self g s t key? e hr
        unfold findEdge at hre
        rw [hre]
        simp only [Option.map]
        rw [hdef]
      · unfold findEdge
        simp only
        rw [replaceEdgeData_other_triple g.edges s t e.key d' s' t' k' htrip]
    · unfold defaultWeightAt
      rw [getGraph_setGraph_other gs mode m _ hm]

/-- C3, amended: sequences of successful `update_edge` and
`update_closest_transit_edge` calls preserve `weight > 0` and
`default_weight > 0` on every edge (the service validates the resolved weight
strictly positive), and never change any edge's `default_weight`; they do NOT,
however, maintain `weight ≥ default_weight − ε` — see the counterexample. -/
theorem edge_positivity_invariant {V : Type} [DecidableEq V] (gs : Graphs V)
    (hpos : ∀ p ∈ gs, ∀ x ∈ p.2.edges, 0 < x.data.weight ∧ 0 < x.data.default_weight) :
    (∀ (mode : String) (s t : V) (key? : Option String) (weight? speed? : Option ℚ)
        (gs' : Graphs V) (view : EdgeView V),
        updateEdge gs mode s t key? weight? speed? = .ok (gs', view) →
        (∀ p ∈ gs', ∀ x ∈ p.2.edges, 0 < x.data.weight ∧ 0 < x.data.default_weight) ∧
        (∀ (m : String) (s' t' : V) (k' : String),
          defaultWeightAt gs' m s' t' k' = defaultWeightAt gs m s' t' k')) ∧
    (∀ (hav : ℚ → ℚ → ℚ → ℚ → ℚ) (lat lon w : ℚ) (gs' : Graphs V) (view : EdgeView V),
        updateClosestTransitEdge hav gs lat lon w = .ok (gs', view) →
        (∀ p ∈ gs', ∀ x ∈ p.2.edges, 0 < x.data.weight ∧ 0 < x.data.default_weight) ∧
        (∀ (m : String) (s' t' : V) (k' : String),
          defaultWeightAt gs' m s' t' k' = defaultWeightAt gs m s' t' k')) := by
  constructor
  · intro mode s t key? weight? speed? gs' view h
    exact updateEdge_preserves gs mode s t key? weight? speed? gs' view h hpos
  · intro hav lat lon w gs' view h
    unfold updateClosestTransitEdge at h
    by_cases hw : w ≤ 0
    · rw [if_pos hw] at h
      exact Except.noConfusion h
    · rw [if_neg hw] at h
      cases hm : closestTransitEdgeMatch hav gs lat lon with
      | none =>
        rw [hm] at h
        exact Except.noConfusion h
      | some m =>
        rw [hm] at h
        exact updateEdge_preserves gs m.mode m.src m.tgt (some m.key) (some w) none
          gs' view h hpos

/-- A one-edge bus graph with baseline weight 100 used as a concrete input. -/
def demoGraphs : Graphs String :=
  [("bus",
    { mode := "bus",
      nodes := [("A", ⟨50, 19⟩), ("B", ⟨51, 20⟩)],
      edges := [⟨"A", "B", "trip1", { weight := 100, default_weight := 100 }⟩] })]

/-- The `demoGraphs` state after the weight of the single edge drops to 1. -/
def demoGraphsLowered : Graphs String :=
  [("bus",
    { mode := "bus",
      nodes := [("A", ⟨50, 19⟩), ("B", ⟨51, 20⟩)],
      edges := [⟨"A", "B", "trip1", { weight := 1, default_weight := 100 }⟩] })]

/-- C3 counterexample: `update_edge` happily accepts a strictly positive
weight far below the baseline, so `weight ≥ default_weight − ε` does not
survive updates: here the weight drops from the baseline 100 to 1. -/
theorem update_edge_lowers_below_baseline :
    updateEdge demoGraphs "bus" "A" "B" (some "trip1") (some 1) none =
      .ok (demoGraphsLowered,
        ⟨"bus", "A", "B", "trip1", { weight := 1, default_weight := 100 }⟩) ∧
    weightAt demoGraphsLowered "bus" "A" "B" "trip1" = some 1 ∧
    defaultWeightAt demoGraphsLowered "bus" "A" "B" "trip1" = some 100 ∧
    ¬ ((1 : ℚ) ≥ 100 - WEIGHT_EPSILON) := by
  refine ⟨by decide, by decide, by decide, ?_⟩
  unfold WEIGHT_EPSILON
  norm_num

theorem resolveCandidate_ne_nil {V : Type} [DecidableEq V] (g : ModeGraph V) (s t : V)
    (key? : Option String) (e : Edge V) (h : resolveCandidate g s t key? = some e) :
    candidateEdges g s t ≠ [] := by
  intro hnil
  unfold resolveCandidate at h
  rw [hnil] at h
  exact Option.noConfusion h

theorem setGraph_getGraph_id {V : Type} (gs : Graphs V) (mode : String) (g : ModeGraph V)
    (hg : getGraph gs mode = some g) (m2 : String) :
    getGraph (setGraph gs mode g) m2 = getGraph gs m2 := by
  by_cases hm : m2 = mode
  · subst hm
    rw [getGraph_setGraph_self gs m2 g g hg, hg]
  · exact getGraph_setGraph_other gs mode m2 g hm

theorem updateEdge_noop_spec {V : Type} [DecidableEq V] (gs : Graphs V) (mode : String)
    (s t : V) (key? : Option String) (g : ModeGraph V) (e : Edge V)
    (hg : getGraph gs mode = some g) (hr : resolveCandidate g s t key? = some e) :
    updateEdge gs mode s t key? none none = .ok (setGraph gs mode g, ⟨mode, s, t, e.key, e.data⟩) := by
  have hrep : replaceEdgeData g.edges s t e.key e.data = g.edges := by
    have hf : findEdge g s t e.key = some e := resolveCandidate_findEdge_self g s t key? e hr
    unfold findEdge at hf
    exact replaceEdgeData_self_data g.edges s t e hf
  unfold updateEdge
  simp only [hg]
  cases hc : candidateEdges g s t with
  | nil => exact absurd hc (resolveCandidate_ne_nil g s t key? e hr)
  | cons e0 rest =>
    simp only [hr, hrep]

theorem updateEdge_weight_spec {V : Type} [DecidableEq V] (gs : Graphs V) (mode : String)
    (s t : V) (key? : Option String) (w : ℚ) (g : ModeGraph V) (e : Edge V)
    (hg : getGraph gs mode = some g) (hr : resolveCandidate g s t key? = some e)
    (hw : 0 < w) :
    updateEdge gs mode s t key? (some w) none =
      .ok (setGraph gs mode
            { g with edges := replaceEdgeData g.edges s t e.key { e.data with weight := w } },
          ⟨mode, s, t, e.key, { e.data with weight := w }⟩) ∧
    weightAt (setGraph gs mode
        { g with edges := replaceEdgeData g.edges s t e.key { e.data with weight := w } })
        mode s t e.key = some w := by
  have hf : findEdge g s t e.key = some e := resolveCandidate_findEdge_self g s t key? e hr
  constructor
  · unfold updateEdge
    simp only [hg]
    cases hc : candidateEdges g s t with
    | nil => exact absurd hc (resolveCandidate_ne_nil g s t key? e hr)
    | cons e0 rest =>
      simp only [hr]
      rw [if_neg (not_le.mpr hw)]
  · unfold weightAt
    rw [getGraph_setGraph_self gs mode g _ hg]
    simp only [Option.some_bind]
    unfold findEdge
    unfold findEdge at hf
    simp only
    rw [replaceEdgeData_of_find g.edges s t e.key { e.data with weight := w } e hf]
    rfl

/-- The payload written by the `speed_kmh` branch of `update_edge`. -/
def speedUpdatedData {V : Type} (e : Edge V) (sp dk : ℚ) : EdgeData :=
  { e.data with speed_kmh := some sp, weight := travelTimeSeconds dk sp }

theorem updateEdge_speed_spec {V : Type} [DecidableEq V] (gs : Graphs V) (mode : String)
    (s t : V) (key? : Option String) (weight? : Option ℚ) (sp dk : ℚ) (g : ModeGraph V)
    (e : Edge V) (hg : getGraph gs mode = some g)
    (hr : resolveCandidate g s t key? = some e) (hd : e.data.distance_km = some dk)
    (hw : 0 < travelTimeSeconds dk sp) :
    updateEdge gs mode s t key? weight? (some sp) =
      .ok (setGraph gs mode
            { g with edges := replaceEdgeData g.edges s t e.key (speedUpdatedData e sp dk) },
          ⟨mode, s, t, e.key, speedUpdatedData e sp dk⟩) ∧
    weightAt (setGraph gs mode
        { g with edges := replaceEdgeData g.edges s t e.key (speedUpdatedData e sp dk) })
        mode s t e.key = some (travelTimeSeconds dk sp) := by
  have hf : findEdge g s t e.key = some e := resolveCandidate_findEdge_self g s t key? e hr
  constructor
  · unfold updateEdge
    simp only [hg]
    cases hc : candidateEdges g s t with
    | nil => exact absurd hc (resolveCandidate_ne_nil g s t key? e hr)
    | cons e0 rest =>
      simp only [hr, hd]
      rw [if_neg (not_le.mpr hw)]
      simp only [speedUpdatedData, hd]
  · unfold weightAt
    rw [getGraph_setGraph_self gs mode g _ hg]
    simp only [Option.some_bind]
    unfold findEdge
    unfold findEdge at hf
    simp only
    rw [replaceEdgeData_of_find g.edges s t e.key (speedUpdatedData e sp dk) e hf]
    rfl

theorem updateEdge_speed_missing {V : Type} [DecidableEq V] (gs : Graphs V) (mode : String)
    (s t : V) (key? : Option String) (weight? : Option ℚ) (sp : ℚ) (g : ModeGraph V)
    (e : Edge V) (hg : getGraph gs mode = some g)
    (hr : resolveCandidate g s t key? = some e) (hd : e.data.distance_km = none) :
    updateEdge gs mode s t key? weight? (some sp) = .error .missingDistance := by
  unfold updateEdge
  simp only [hg]
  cases hc : candidateEdges g s t with
  | nil => exact absurd hc (resolveCandidate_ne_nil g s t key? e hr)
  | cons e0 rest => simp only [hr, hd]

theorem updateEdge_nonpos_weight {V : Type} [DecidableEq V] (gs : Graphs V) (mode : String)
    (s t : V) (key? : Option String) (w : ℚ) (g : ModeGraph V) (e : Edge V)
    (hg : getGraph gs mode = some g) (hr : resolveCandidate g s t key? = some e)
    (hw : w ≤ 0) :
    updateEdge gs mode s t key? (some w) none = .error .nonpositiveWeight := by
  unfold updateEdge
  simp only [hg]
  cases hc : candidateEdges g s t with
  | nil => exact absurd hc (resolveCandidate_ne_nil g s t key? e hr)
  | cons e0 rest =>
    simp only [hr]
    rw [if_pos hw]

theorem updateEdge_speed_nonpos {V : Type} [DecidableEq V] (gs : Graphs V) (mode : String)
    (s t : V) (key? : Option String) (weight? : Option ℚ) (sp dk : ℚ) (g : ModeGraph V)
    (e : Edge V) (hg : getGraph gs mode = some g)
    (hr : resolveCandidate g s t key? = some e) (hd : e.data.distance_km = some dk)
    (hw : travelTimeSeconds dk sp ≤ 0) :
    updateEdge gs mode s t key? weight? (some sp) = .error .nonpositiveWeight := by
  unfold updateEdge
  simp only [hg]
  cases hc : candidateEdges g s t with
  | nil => exact absurd hc (resolveCandidate_ne_nil g s t key? e hr)
  | cons e0 rest =>
    simp only [hr, hd]
    rw [if_pos hw]

/-- C5, amended: on a resolved edge, `update_edge` fails `InvalidWeight` when
`speed_kmh` is supplied without `distance_km` on the edge, and when the
resolved weight (explicit or derived) is not strictly positive; a successful
call writes the resolved weight (`distance_km / speed_kmh * 3600` when a speed
is given); but a call supplying NEITHER `weight` nor `speed_kmh` does not
fail — it succeeds as a no-op that leaves every edge weight unchanged. -/
theorem update_edge_argument_contract {V : Type} [DecidableEq V] (gs : Graphs V)
    (mode : String) (s t : V) (key? : Option String) (g : ModeGraph V) (e : Edge V)
    (hg : getGraph gs mode = some g) (hr : resolveCandidate g s t key? = some e) :
    (e.data.distance_km = none → ∀ (weight? : Option ℚ) (sp : ℚ),
      updateEdge gs mode s t key? weight? (some sp) = .error .missingDistance) ∧
    (∀ w : ℚ, w ≤ 0 →
      updateEdge gs mode s t key? (some w) none = .error .nonpositiveWeight) ∧
    (∀ (dk sp : ℚ) (weight? : Option ℚ), e.data.distance_km = some dk →
      travelTimeSeconds dk sp ≤ 0 →
      updateEdge gs mode s t key? weight? (some sp) = .error .nonpositiveWeight) ∧
    (updateEdge gs mode s t key? none none =
        .ok (setGraph gs mode g, ⟨mode, s, t, e.key, e.data⟩) ∧
      ∀ (m : String) (s' t' : V) (k' : String),
        weightAt (setGraph gs mode g) m s' t' k' = weightAt gs m s' t' k') ∧
    (∀ w : ℚ, 0 < w → ∃ (gs' : Graphs V) (view : EdgeView V),
      updateEdge gs mode s t key? (some w) none = .ok (gs', view) ∧
      view.data.weight = w ∧ weightAt gs' mode s t e.key = some w) ∧
    (∀ (dk sp : ℚ) (weight? : Option ℚ), e.data.distance_km = some dk →
      0 < travelTimeSeconds dk sp → ∃ (gs' : Graphs V) (view : EdgeView V),
      updateEdge gs mode s t key? weight? (some sp) = .ok (gs', view) ∧
      view.data.weight = travelTimeSeconds dk sp ∧
      weightAt gs' mode s t e.key = some (travelTimeSeconds dk sp)) := by
  refine ⟨?_, ?_, ?_, ⟨?_, ?_⟩, ?_, ?_⟩
  · intro hd weight? sp
    exact updateEdge_speed_missing gs mode s t key? weight? sp g e hg hr hd
  · intro w hw
    exact updateEdge_nonpos_weight gs mode s t key? w g e hg hr hw
  · intro dk sp weight? hd hw
    exact updateEdge_speed_nonpos gs mode s t key? weight? sp dk g e hg hr hd hw
  · exact updateEdge_noop_spec gs mode s t key? g e hg hr
  · intro m s' t' k'
    unfold weightAt
    rw [setGraph_getGraph_id gs mode g hg]
  · intro w hw
    obtain ⟨h1, h2⟩ := updateEdge_weight_spec gs mode s t key? w g e hg hr hw
    exact ⟨_, _, h1, rfl, h2⟩
  · intro dk sp weight? hd hw
    obtain ⟨h1, h2⟩ := updateEdge_speed_spec gs mode s t key? weight? sp dk g e hg hr hd hw
    exact ⟨_, _, h1, rfl, h2⟩

/-- C5 counterexample: a call supplying neither `weight` nor `speed_kmh`
succeeds (and leaves the edge weight at 100) instead of failing as the claim
asserts.  The full success value is computed: the post-image carries the
unchanged payload. -/
theorem update_edge_no_args_succeeds :
    updateEdge demoGraphs "bus" "A" "B" none none none =
      .ok (demoGraphs, ⟨"bus", "A", "B", "trip1", { weight := 100, default_weight := 100 }⟩) := by
  decide

/-- The `Queue(maxsize=128)` capacity handed to every subscriber. -/
def SUBSCRIBER_QUEUE_CAPACITY : ℕ := 128

/-- One delivery of `_notify_subscribers` to a single subscriber queue:
`put_nowait` succeeds when the queue is below capacity; on `QueueFull` the
oldest entry is dropped (`get_nowait` under `suppress(QueueEmpty)`) and the
put is retried (under `suppress(QueueFull)`). -/
def notifySubscriberQueue {α : Type} (cap : ℕ) (q : List α) (e : α) : List α :=
  if q.length < cap then q ++ [e]
  else
    let dropped := q.drop 1
    if dropped.length < cap then dropped ++ [e] else dropped

/-- `subscribe` hands out a fresh empty queue. -/
def subscribeQueue {α : Type} : List α := []

theorem notifySubscriberQueue_drop_formula {α : Type} (cap : ℕ) (hcap : 1 ≤ cap)
    (evs : List α) :
    evs.foldl (notifySubscriberQueue cap) subscribeQueue =
      evs.drop (evs.length - cap) := by
  induction evs using List.reverseRecOn with
  | nil => simp [subscribeQueue]
  | append_singleton xs x ih =>
    rw [List.foldl_append, List.foldl_cons, List.foldl_nil, ih]
    by_cases hlen : xs.length < cap
    · unfold notifySubscriberQueue
      have h0 : xs.length - cap = 0 := by omega
      rw [h0, List.drop_zero]
      rw [if_pos hlen]
      have h1 : (xs ++ [x]).length - cap = 0 := by
        rw [List.length_append, List.length_cons, List.length_nil]
        omega
      rw [h1, List.drop_zero]
    · unfold notifySubscriberQueue
      have hfull : ¬ (xs.drop (xs.length - cap)).length < cap := by
        rw [List.length_drop]
        omega
      rw [if_neg hfull]
      have hsmall : ((xs.drop (xs.length - cap)).drop 1).length < cap := by
        rw [List.length_drop, List.length_drop]
        omega
      rw [if_pos hsmall]
      rw [List.drop_drop]
      have harith : xs.length - cap + 1 = xs.length + 1 - cap := by omega
      rw [harith]
      have hlen2 : (xs ++ [x]).length = xs.length + 1 := by simp
      rw [hlen2]
      rw [List.drop_append_eq_append_drop]
      have hz : xs.length + 1 - cap - xs.length = 0 := by omega
      rw [hz, List.drop_zero]

/-- C8: every subscriber queue starts empty with capacity 128; after any
sequence of publishes the retained events are exactly the most recent 128 in
publish order (the queue is the length-128 suffix of the publish sequence),
so the queue never exceeds 128 events; and a publish into a full queue drops
exactly the oldest entry and appends the new event. -/
theorem subscriber_queue_capacity_fifo {α : Type} :
    (∀ evs : List α,
      evs.foldl (notifySubscriberQueue SUBSCRIBER_QUEUE_CAPACITY) subscribeQueue =
        evs.drop (evs.length - SUBSCRIBER_QUEUE_CAPACITY) ∧
      (evs.foldl (notifySubscriberQueue SUBSCRIBER_QUEUE_CAPACITY) subscribeQueue).length ≤
        SUBSCRIBER_QUEUE_CAPACITY) ∧
    (∀ (q : List α) (e : α), q.length = SUBSCRIBER_QUEUE_CAPACITY →
      notifySubscriberQueue SUBSCRIBER_QUEUE_CAPACITY q e = q.drop 1 ++ [e]) := by
  constructor
  · intro evs
    have hform := notifySubscriberQueue_drop_formula SUBSCRIBER_QUEUE_CAPACITY
      (by unfold SUBSCRIBER_QUEUE_CAPACITY; omega) evs
    refine ⟨hform, ?_⟩
    rw [hform, List.length_drop]
    omega
  · intro q e hq
    have hcap : 1 ≤ SUBSCRIBER_QUEUE_CAPACITY := by
      unfold SUBSCRIBER_QUEUE_CAPACITY
      omega
    unfold notifySubscriberQueue
    rw [if_neg (by omega)]
    rw [if_pos (by rw [List.length_drop]; omega)]

/-- A wire-format incident as read by `_apply_incident_impacts`.  The payload
carries the reporter's social score, but the service never reads it. -/
structure Incident where
  category : Option String
  latitude : Option ℚ
  longitude : Option ℚ
  approved : Bool := false
  reporter_social_score : Option ℚ := none
deriving DecidableEq

/-- `EdgeKey = tuple[str, str, str, str]`: (mode, source, target, key). -/
abbrev EdgeKeyT (V : Type) := String × V × V × String

/-- The mutable state of `IncidentImpactService`. -/
structure ImpactState (V : Type) where
  edge_baselines : List (EdgeKeyT V × ℚ)
  current_multipliers : List (EdgeKeyT V × ℚ)
  modified_edges : List (EdgeKeyT V)
deriving DecidableEq

/-- The service state at startup. -/
def cleanImpactState {V : Type} : ImpactState V := ⟨[], [], []⟩

/-- `IncidentImpactService.INCIDENT_DELAY_MAPPING` as checked in: empty. -/
def INCIDENT_DELAY_MAPPING : List (String × ℚ) := []

/-- Python dict read `d.get(a)` over an insertion-ordered association list. -/
def alistGet? {α β : Type} [DecidableEq α] (l : List (α × β)) (a : α) : Option β :=
  (l.find? (fun p => p.1 == a)).map Prod.snd

/-- Python dict write `d[a] = b`: update in place, else append. -/
def alistSet {α β : Type} [DecidableEq α] (l : List (α × β)) (a : α) (b : β) :
    List (α × β) :=
  if (l.find? (fun p => p.1 == a)).isSome then
    l.map (fun p => if p.1 == a then (a, b) else p)
  else l ++ [(a, b)]

/-- The per-incident body of the loop in `_apply_incident_impacts`: filter by
category multiplier and coordinates, resolve the nearest transit edge, capture
the baseline lazily (`weight / current_multiplier` on first impact) and raise
the target multiplier for that edge when it beats the previous best. -/
def processIncident {V : Type} [DecidableEq V] (mapping : List (String × ℚ))
    (hav : ℚ → ℚ → ℚ → ℚ → ℚ) (gs : Graphs V)
    (acc : List (EdgeKeyT V × ℚ) × List (EdgeKeyT V × ℚ))
    (cur : List (EdgeKeyT V × ℚ)) (inc : Incident) :
    List (EdgeKeyT V × ℚ) × List (EdgeKeyT V × ℚ) :=
  match inc.category with
  | none => acc
  | some c =>
    match alistGet? mapping c with
    | none => acc
    | some mult =>
      if mult ≤ 0 then acc
      else
        match inc.latitude, inc.longitude with
        | some lat, some lon =>
          (match getClosestTransitEdge hav gs lat lon with
          | none => acc
          | some (ev, _) =>
            let ek : EdgeKeyT V := (ev.mode, ev.src, ev.tgt, ev.key)
            let cm := (alistGet? cur ek).getD 1
            let baselines :=
              match alistGet? acc.1 ek with
              | some _ => acc.1
              | none =>
                let b0 := ev.data.weight
                alistSet acc.1 ek (if cm ≠ 0 then b0 / cm else b0)
            let prev := (alistGet? acc.2 ek).getD 1
            let targets := if prev < mult then alistSet acc.2 ek mult else acc.2
            (baselines, targets))
        | _, _ => acc

/-- First half of `_apply_multipliers`: walk the target map and push
`baseline * multiplier` onto every edge whose multiplier changed.  An
exception from `update_edge` unwinds the whole cycle (flag `true`), keeping
the graphs and multipliers mutated so far. -/
def applyTargets {V : Type} [DecidableEq V] :
    List (EdgeKeyT V × ℚ) → Graphs V → List (EdgeKeyT V × ℚ) →
    List (EdgeKeyT V × ℚ) → Graphs V × List (EdgeKeyT V × ℚ) × Bool
  | [], gs, _, cur => (gs, cur, false)
  | (ek, mult) :: rest, gs, baselines, cur =>
    match alistGet? baselines ek with
    | none => applyTargets rest gs baselines cur
    | some b =>
      if mult = (alistGet? cur ek).getD 1 then applyTargets rest gs baselines cur
      else
        match updateEdge gs ek.1 ek.2.1 ek.2.2.1 (some ek.2.2.2) (some (b * mult)) none with
        | .error _ => (gs, cur, true)
        | .ok (gs', _) => applyTargets rest gs' baselines (alistSet cur ek mult)

/-- Second half of `_apply_multipliers`: iterate a snapshot of the current
multipliers and revert every edge that is no longer targeted back to its
captured baseline. -/
def revertStale {V : Type} [DecidableEq V] :
    List (EdgeKeyT V × ℚ) → List (EdgeKeyT V × ℚ) → Graphs V →
    List (EdgeKeyT V × ℚ) → List (EdgeKeyT V × ℚ) →
    Graphs V × List (EdgeKeyT V × ℚ) × Bool
  | [], _, gs, _, cur => (gs, cur, false)
  | (ek, cm) :: rest, targets, gs, baselines, cur =>
    if (alistGet? targets ek).isSome then revertStale rest targets gs baselines cur
    else if cm = 1 then revertStale rest targets gs baselines cur
    else
      match alistGet? baselines ek with
      | none => revertStale rest targets gs baselines cur
      | some b =>
        match updateEdge gs ek.1 ek.2.1 ek.2.2.1 (some ek.2.2.2) (some b) none with
        | .error _ => (gs, cur, true)
        | .ok (gs', _) => revertStale rest targets gs' baselines (alistSet cur ek 1)

/-- `_apply_multipliers`: apply phase, revert phase, then recompute the
modified-edge list; an exception aborts the remaining phases, leaving
`modified_edges` stale exactly as in the source. -/
def applyMultipliers {V : Type} [DecidableEq V] (gs : Graphs V) (st : ImpactState V)
    (targets : List (EdgeKeyT V × ℚ)) : Graphs V × ImpactState V :=
  match applyTargets targets gs st.edge_baselines st.current_multipliers with
  | (gs1, cur1, true) => (gs1, { st with current_multipliers := cur1 })
  | (gs1, cur1, false) =>
    match revertStale cur1 targets gs1 st.edge_baselines cur1 with
    | (gs2, cur2, true) => (gs2, { st with current_multipliers := cur2 })
    | (gs2, cur2, false) =>
      let modified := (cur2.filter (fun p => p.2 != 1)).map Prod.fst
      (gs2, { st with current_multipliers := cur2, modified_edges := modified })

/-- `_apply_incident_impacts`: scan the incidents against the current graphs
(capturing baselines and accumulating target multipliers), then reconcile via
`_apply_multipliers`. -/
def applyIncidentImpacts {V : Type} [DecidableEq V] (mapping : List (String × ℚ))
    (hav : ℚ → ℚ → ℚ → ℚ → ℚ) (incidents : List Incident) (gs : Graphs V)
    (st : ImpactState V) : Graphs V × ImpactState V :=
  let scan := incidents.foldl
    (fun acc inc => processIncident mapping hav gs acc st.current_multipliers inc)
    (st.edge_baselines, [])
  applyMultipliers gs { st with edge_baselines := scan.1 } scan.2

/-- One iteration of `IncidentImpactService._run`: a failed fetch is logged
and skipped, so the cycle applies nothing; a successful fetch feeds
`_apply_incident_impacts`. -/
def runCycle {V : Type} [DecidableEq V] (mapping : List (String × ℚ))
    (hav : ℚ → ℚ → ℚ → ℚ → ℚ) (fetched : Except String (List Incident))
    (gs : Graphs V) (st : ImpactState V) : Graphs V × ImpactState V :=
  match fetched with
  | .error _ => (gs, st)
  | .ok incidents => applyIncidentImpacts mapping hav incidents gs st

/-- C9: when the incident fetch of a cycle fails, that cycle performs no edge
update and no revert: the graphs, the stored baselines, the current
multipliers and the modified-edge list are all returned exactly as they were,
for every mapping, distance function, prior state and fetch error. -/
theorem fetch_failure_is_noop {V : Type} [DecidableEq V] (mapping : List (String × ℚ))
    (hav : ℚ → ℚ → ℚ → ℚ → ℚ) (err : String) (gs : Graphs V) (st : ImpactState V) :
    runCycle mapping hav (.error err) gs st = (gs, st) := rfl

/-- The three sub-threshold-then-boosted Traffic reports of scenario S2
(social scores 20, 25 and 15, summing to 60 ≥ the documented threshold 50). -/
def s2Incidents : List Incident :=
  [⟨some "Traffic", some 50, some 19, false, some 20⟩,
   ⟨some "Traffic", some 50, some 19, false, some 25⟩,
   ⟨some "Traffic", some 50, some 19, false, some 15⟩]

/-- A distance function ignoring its arguments; any candidate ties at 0. -/
def hav0 : ℚ → ℚ → ℚ → ℚ → ℚ := fun _ _ _ _ => 0

/-- C1: the checked-in `INCIDENT_DELAY_MAPPING` is empty and the service
aggregates no reporter scores at all, so the threshold contract of S2 cannot
hold: running a full impact cycle over the three Traffic reports whose scores
sum to 60 ≥ 50 changes nothing — the nearest edge keeps its baseline weight
100 instead of the claimed `baseline * 1.5 = 150`. -/
theorem traffic_threshold_not_implemented :
    applyIncidentImpacts INCIDENT_DELAY_MAPPING hav0 s2Incidents demoGraphs
        cleanImpactState = (demoGraphs, cleanImpactState) ∧
    weightAt demoGraphs "bus" "A" "B" "trip1" = some 100 ∧
    (100 : ℚ) * (3 / 2) ≠ 100 := by
  refine ⟨by decide, by decide, by norm_num⟩

theorem alistGet?_nil {α β : Type} [DecidableEq α] (a : α) :
    alistGet? ([] : List (α × β)) a = none := rfl

theorem alistSet_nil {α β : Type} [DecidableEq α] (a : α) (b : β) :
    alistSet [] a b = [(a, b)] := by
  simp [alistSet]

theorem alistGet?_singleton_self {α β : Type} [DecidableEq α] (a : α) (b : β) :
    alistGet? [(a, b)] a = some b := by
  simp [alistGet?]

theorem getClosestTransitEdge_inv {V : Type} [DecidableEq V] (hav : ℚ → ℚ → ℚ → ℚ → ℚ)
    (gs : Graphs V) (lat lon : ℚ) (ev : EdgeView V) (d : ℚ)
    (h : getClosestTransitEdge hav gs lat lon = some (ev, d)) :
    ∃ (g : ModeGraph V) (e : Edge V), getGraph gs ev.mode = some g ∧
      findEdge g ev.src ev.tgt ev.key = some e ∧ ev.data = e.data := by
  unfold getClosestTransitEdge at h
  cases hm : closestTransitEdgeMatch hav gs lat lon with
  | none =>
    simp only [hm] at h
    exact Option.noConfusion h
  | some m =>
    simp only [hm] at h
    cases hg : getGraph gs m.mode with
    | none =>
      simp only [hg] at h
      exact Option.noConfusion h
    | some g =>
      simp only [hg] at h
      cases hf : findEdge g m.src m.tgt m.key with
      | none =>
        simp only [hf] at h
        exact Option.noConfusion h
      | some e =>
        simp only [hf] at h
        simp only [Option.some.injEq, Prod.mk.injEq] at h
        obtain ⟨hev, _⟩ := h
        rw [← hev]
        exact ⟨g, e, hg, hf, rfl⟩

theorem updateEdge_preserves_defaults {V : Type} [DecidableEq V] (gs : Graphs V)
    (mode : String) (s t : V) (key? : Option String) (weight? speed? : Option ℚ)
    (gs' : Graphs V) (view : EdgeView V)
    (h : updateEdge gs mode s t key? weight? speed? = .ok (gs', view)) :
    ∀ (m : String) (s' t' : V) (k' : String),
      defaultWeightAt gs' m s' t' k' = defaultWeightAt gs m s' t' k' := by
  obtain ⟨g, e, d', hg, hr, hgs', hview, hdef, hwpos⟩ :=
    updateEdge_ok_inv gs mode s t key? weight? speed? gs' view h
  intro m s' t' k'
  rw [hgs']
  by_cases hm : m = mode
  · subst hm
    unfold defaultWeightAt
    rw [getGraph_setGraph_self gs m g _ hg, hg]
    simp only [Option.some_bind]
    by_cases htrip : s' = s ∧ t' = t ∧ k' = e.key
    · obtain ⟨h1, h2, h3⟩ := htrip
      rw [h1, h2, h3]
      unfold findEdge
      simp only
      rw [replaceEdgeData_of_find g.edges s t e.key d' e
        (resolveCandidate_findEdge_self g s t key? e hr)]
      have hre : findEdge g s t e.key = some e :=
        resolveCandidate_findEdge_self g s t key? e hr
      unfold findEdge at hre
      rw [hre]
      simp only [Option.map]
      rw [hdef]
    · unfold findEdge
      simp only
      rw [replaceEdgeData_other_triple g.edges s t e.key d' s' t' k' htrip]
  · unfold defaultWeightAt
    rw [getGraph_setGraph_other gs mode m _ hm]

theorem alistSet_singleton_self {α β : Type} [DecidableEq α] (a : α) (b c : β) :
    alistSet [(a, b)] a c = [(a, c)] := by
  simp [alistSet]

theorem processIncident_clean_spec {V : Type} [DecidableEq V]
    (mapping : List (String × ℚ)) (hav : ℚ → ℚ → ℚ → ℚ → ℚ) (gs : Graphs V)
    (c : String) (μ lat lon : ℚ) (appr : Bool) (score : Option ℚ)
    (ev : EdgeView V) (d : ℚ)
    (hmap : alistGet? mapping c = some μ) (hμ : 1 < μ)
    (hclosest : getClosestTransitEdge hav gs lat lon = some (ev, d)) :
    processIncident mapping hav gs ([], []) [] ⟨some c, some lat, some lon, appr, score⟩ =
      ([((ev.mode, ev.src, ev.tgt, ev.key), ev.data.weight / 1)],
       [((ev.mode, ev.src, ev.tgt, ev.key), μ)]) := by
  have hμ0 : ¬ μ ≤ 0 := not_le.mpr (lt_trans one_pos hμ)
  unfold processIncident
  simp only [hmap, hclosest, if_neg hμ0, alistGet?_nil, Option.getD_none, alistSet_nil,
    if_pos hμ, if_pos (one_ne_zero (α := ℚ))]

theorem applyTargets_single_spec {V : Type} [DecidableEq V] (gs : Graphs V)
    (ek : EdgeKeyT V) (b μ : ℚ) (g : ModeGraph V) (e : Edge V)
    (hg : getGraph gs ek.1 = some g)
    (hf : findEdge g ek.2.1 ek.2.2.1 ek.2.2.2 = some e)
    (hμne : ¬ μ = (1 : ℚ)) (hbm : 0 < b * μ) :
    ∃ (gs' : Graphs V) (e' : Edge V) (g' : ModeGraph V),
      applyTargets [(ek, μ)] gs [(ek, b)] [] = (gs', [(ek, μ)], false) ∧
      weightAt gs' ek.1 ek.2.1 ek.2.2.1 ek.2.2.2 = some (b * μ) ∧
      (∀ (m : String) (s' t' : V) (k' : String),
        defaultWeightAt gs' m s' t' k' = defaultWeightAt gs m s' t' k') ∧
      getGraph gs' ek.1 = some g' ∧
      findEdge g' ek.2.1 ek.2.2.1 ek.2.2.2 = some e' ∧
      e'.data.weight = b * μ ∧ e'.data.default_weight = e.data.default_weight := by
  have hkey : e.key = ek.2.2.2 :=
    (findEdge_mem_props g ek.2.1 ek.2.2.1 ek.2.2.2 e hf).2.2.2
  have hr : resolveCandidate g ek.2.1 ek.2.2.1 (some ek.2.2.2) = some e := by
    rw [resolveCandidate_some_eq_findEdge]
    exact hf
  obtain ⟨hupd, hwAt⟩ := updateEdge_weight_spec gs ek.1 ek.2.1 ek.2.2.1 (some ek.2.2.2)
    (b * μ) g e hg hr hbm
  rw [hkey] at hupd hwAt
  have hcond : ¬ μ = (alistGet? ([] : List (EdgeKeyT V × ℚ)) ek).getD 1 := by
    simpa [alistGet?] using hμne
  refine ⟨setGraph gs ek.1 { g with edges := replaceEdgeData g.edges ek.2.1 ek.2.2.1 ek.2.2.2 { e.data with weight := b * μ } }, { e with data := { e.data with weight := b * μ } }, { g with edges := replaceEdgeData g.edges ek.2.1 ek.2.2.1 ek.2.2.2 { e.data with weight := b * μ } }, ?_, ?_, ?_, ?_, ?_, rfl, rfl⟩
  · unfold applyTargets
    simp only [alistGet?_singleton_self, if_neg hcond, hupd, alistSet_nil]
    unfold applyTargets
    rfl
  · exact hwAt
  · exact updateEdge_preserves_defaults gs ek.1 ek.2.1 ek.2.2.1 (some ek.2.2.2)
      (some (b * μ)) none _ _ hupd
  · exact getGraph_setGraph_self gs ek.1 g _ hg
  · have hrep := replaceEdgeData_of_find g.edges ek.2.1 ek.2.2.1 e.key
      { e.data with weight := b * μ } e (resolveCandidate_findEdge_self g _ _ _ e hr)
    rw [hkey] at hrep
    unfold findEdge
    simp only
    rw [hrep, hkey]

theorem revertStale_targeted_skip {V : Type} [DecidableEq V] (gs : Graphs V)
    (ek : EdgeKeyT V) (μ b : ℚ) (baselines : List (EdgeKeyT V × ℚ)) :
    revertStale [(ek, μ)] [(ek, b)] gs baselines [(ek, μ)] = (gs, [(ek, μ)], false) := by
  unfold revertStale
  rw [if_pos (by simp [alistGet?_singleton_self])]
  rfl

theorem revertStale_single_revert {V : Type} [DecidableEq V] (gs : Graphs V)
    (ek : EdgeKeyT V) (μ b : ℚ) (g : ModeGraph V) (e : Edge V)
    (hg : getGraph gs ek.1 = some g)
    (hf : findEdge g ek.2.1 ek.2.2.1 ek.2.2.2 = some e)
    (hμne : ¬ μ = (1 : ℚ)) (hb : 0 < b) :
    ∃ gs' : Graphs V,
      revertStale [(ek, μ)] [] gs [(ek, b)] [(ek, μ)] = (gs', [(ek, 1)], false) ∧
      weightAt gs' ek.1 ek.2.1 ek.2.2.1 ek.2.2.2 = some b ∧
      (∀ (m : String) (s' t' : V) (k' : String),
        defaultWeightAt gs' m s' t' k' = defaultWeightAt gs m s' t' k') := by
  have hkey : e.key = ek.2.2.2 :=
    (findEdge_mem_props g ek.2.1 ek.2.2.1 ek.2.2.2 e hf).2.2.2
  have hr : resolveCandidate g ek.2.1 ek.2.2.1 (some ek.2.2.2) = some e := by
    rw [resolveCandidate_some_eq_findEdge]
    exact hf
  obtain ⟨hupd, hwAt⟩ := updateEdge_weight_spec gs ek.1 ek.2.1 ek.2.2.1 (some ek.2.2.2)
    b g e hg hr hb
  rw [hkey] at hupd hwAt
  refine ⟨setGraph gs ek.1 { g with edges := replaceEdgeData g.edges ek.2.1 ek.2.2.1 ek.2.2.2 { e.data with weight := b } }, ?_, ?_, ?_⟩
  · unfold revertStale
    rw [if_neg (by simp [alistGet?])]
    rw [if_neg hμne]
    simp only [alistGet?_singleton_self, hupd, alistSet_singleton_self]
    unfold revertStale
    rfl
  · exact hwAt
  · exact updateEdge_preserves_defaults gs ek.1 ek.2.1 ek.2.2.1 (some ek.2.2.2)
      (some b) none _ _ hupd

theorem impact_cycle_spec {V : Type} [DecidableEq V] (mapping : List (String × ℚ))
    (hav : ℚ → ℚ → ℚ → ℚ → ℚ) (gs : Graphs V) (c : String) (μ lat lon : ℚ)
    (appr : Bool) (score : Option ℚ) (ev : EdgeView V) (d : ℚ)
    (hmap : alistGet? mapping c = some μ) (hμ : 1 < μ)
    (hclosest : getClosestTransitEdge hav gs lat lon = some (ev, d))
    (hw : 0 < ev.data.weight) :
    ∃ (gs1 gs2 : Graphs V) (st1 st2 : ImpactState V),
      applyIncidentImpacts mapping hav [⟨some c, some lat, some lon, appr, score⟩] gs
        cleanImpactState = (gs1, st1) ∧
      weightAt gs1 ev.mode ev.src ev.tgt ev.key = some (ev.data.weight * μ) ∧
      alistGet? st1.edge_baselines (ev.mode, ev.src, ev.tgt, ev.key) = some ev.data.weight ∧
      alistGet? st1.current_multipliers (ev.mode, ev.src, ev.tgt, ev.key) = some μ ∧
      st1.modified_edges = [(ev.mode, ev.src, ev.tgt, ev.key)] ∧
      applyIncidentImpacts mapping hav [] gs1 st1 = (gs2, st2) ∧
      weightAt gs2 ev.mode ev.src ev.tgt ev.key = some ev.data.weight ∧
      alistGet? st2.current_multipliers (ev.mode, ev.src, ev.tgt, ev.key) = some 1 ∧
      st2.modified_edges = [] ∧
      defaultWeightAt gs2 ev.mode ev.src ev.tgt ev.key =
        defaultWeightAt gs ev.mode ev.src ev.tgt ev.key := by
  obtain ⟨g, e, hg, hf, hdata⟩ := getClosestTransitEdge_inv hav gs lat lon ev d hclosest
  have hμne : ¬ μ = (1 : ℚ) := fun hc => absurd (hc ▸ hμ) (lt_irrefl 1)
  have hdiv : ev.data.weight / 1 = ev.data.weight := div_one _
  have hbm : 0 < (ev.data.weight / 1) * μ := by
    rw [hdiv]
    exact mul_pos hw (lt_trans one_pos hμ)
  obtain ⟨gs1, e', g', happly, hw1, hdef1, hg', hf', hw', hdef'⟩ :=
    applyTargets_single_spec gs (ev.mode, ev.src, ev.tgt, ev.key) (ev.data.weight / 1) μ
      g e hg hf hμne hbm
  have hbne : (μ != (1 : ℚ)) = true := by
    simp only [bne_iff_ne, ne_eq]
    exact hμne
  have hcycle1 : applyIncidentImpacts mapping hav [⟨some c, some lat, some lon, appr, score⟩]
      gs cleanImpactState =
      (gs1, ⟨[((ev.mode, ev.src, ev.tgt, ev.key), ev.data.weight / 1)],
             [((ev.mode, ev.src, ev.tgt, ev.key), μ)],
             [(ev.mode, ev.src, ev.tgt, ev.key)]⟩) := by
    unfold applyIncidentImpacts
    simp only [cleanImpactState, List.foldl_cons, List.foldl_nil]
    rw [processIncident_clean_spec mapping hav gs c μ lat lon appr score ev d hmap hμ hclosest]
    unfold applyMultipliers
    simp only [happly]
    rw [revertStale_targeted_skip gs1 (ev.mode, ev.src, ev.tgt, ev.key) μ μ
      [((ev.mode, ev.src, ev.tgt, ev.key), ev.data.weight / 1)]]
    simp only [List.filter_cons, List.filter_nil, hbne, if_true, List.map_cons, List.map_nil]
  have hb2 : 0 < ev.data.weight / 1 := by
    rw [hdiv]
    exact hw
  obtain ⟨gs2, hrevert, hw2, hdef2⟩ :=
    revertStale_single_revert gs1 (ev.mode, ev.src, ev.tgt, ev.key) μ (ev.data.weight / 1)
      g' e' hg' hf' hμne hb2
  have hcycle2 : applyIncidentImpacts mapping hav [] gs1
      ⟨[((ev.mode, ev.src, ev.tgt, ev.key), ev.data.weight / 1)],
       [((ev.mode, ev.src, ev.tgt, ev.key), μ)],
       [(ev.mode, ev.src, ev.tgt, ev.key)]⟩ =
      (gs2, ⟨[((ev.mode, ev.src, ev.tgt, ev.key), ev.data.weight / 1)],
             [((ev.mode, ev.src, ev.tgt, ev.key), 1)], []⟩) := by
    unfold applyIncidentImpacts
    simp only [List.foldl_nil]
    unfold applyMultipliers
    unfold applyTargets
    simp only [hrevert]
    simp only [List.filter_cons, List.filter_nil, bne_self_eq_false, Bool.false_eq_true,
      if_false, List.map_nil]
  refine ⟨gs1, gs2, _, _, hcycle1, ?_, ?_, ?_, rfl, hcycle2, ?_, ?_, rfl, ?_⟩
  · rw [hdiv] at hw1
    exact hw1
  · simp only [alistGet?_singleton_self, hdiv]
  · simp only [alistGet?_singleton_self]
  · rw [hdiv] at hw2
    exact hw2
  · simp only [alistGet?_singleton_self]
  · rw [hdef2 ev.mode ev.src ev.tgt ev.key, hdef1 ev.mode ev.src ev.tgt ev.key]

/-- C4, amended: an edge impacted by the Incident Impact Loop is reverted on
the first cycle in which no incident drives it any more, and the weight it is
reverted to is exactly the lazily captured baseline — the edge's weight at
first impact divided by the then-current multiplier (here 1.0).  That equals
the edge's `default_weight` exactly when the edge was at its default weight
when first impacted; an edge externally modified before the first impact is
reverted to the modified weight, not to `default_weight`. -/
theorem incident_revert_restores_captured_baseline {V : Type} [DecidableEq V]
    (mapping : List (String × ℚ)) (hav : ℚ → ℚ → ℚ → ℚ → ℚ) (gs : Graphs V)
    (c : String) (μ lat lon : ℚ) (appr : Bool) (score : Option ℚ)
    (ev : EdgeView V) (d : ℚ)
    (hmap : alistGet? mapping c = some μ) (hμ : 1 < μ)
    (hclosest : getClosestTransitEdge hav gs lat lon = some (ev, d))
    (hw : 0 < ev.data.weight) :
    ∃ (gs1 gs2 : Graphs V) (st1 st2 : ImpactState V),
      applyIncidentImpacts mapping hav [⟨some c, some lat, some lon, appr, score⟩] gs
        cleanImpactState = (gs1, st1) ∧
      weightAt gs1 ev.mode ev.src ev.tgt ev.key = some (ev.data.weight * μ) ∧
      alistGet? st1.edge_baselines (ev.mode, ev.src, ev.tgt, ev.key) = some ev.data.weight ∧
      applyIncidentImpacts mapping hav [] gs1 st1 = (gs2, st2) ∧
      weightAt gs2 ev.mode ev.src ev.tgt ev.key = some ev.data.weight ∧
      alistGet? st2.current_multipliers (ev.mode, ev.src, ev.tgt, ev.key) = some 1 ∧
      st2.modified_edges = [] ∧
      (defaultWeightAt gs ev.mode ev.src ev.tgt ev.key = some ev.data.weight →
        weightAt gs2 ev.mode ev.src ev.tgt ev.key =
          defaultWeightAt gs ev.mode ev.src ev.tgt ev.key) := by
  obtain ⟨gs1, gs2, st1, st2, h1, hw1, hbase1, hmul1, hmod1, h2, hw2, hmul2, hmod2, hdef⟩ :=
    impact_cycle_spec mapping hav gs c μ lat lon appr score ev d hmap hμ hclosest hw
  refine ⟨gs1, gs2, st1, st2, h1, hw1, hbase1, h2, hw2, hmul2, hmod2, ?_⟩
  intro hdw
  rw [hw2, hdw]

/-- A one-edge bus graph whose weight 200 was externally raised above its
baseline 100 before any incident fired. -/
def c4Graphs : Graphs String :=
  [("bus",
    { mode := "bus",
      nodes := [("A", ⟨50, 19⟩), ("B", ⟨51, 20⟩)],
      edges := [⟨"A", "B", "trip1", { weight := 200, default_weight := 100 }⟩] })]

/-- C4 counterexample: with the category mapping configured to
`Traffic ↦ 2`, an incident impacts the pre-modified edge (weight 200,
`default_weight` 100); once the incident disappears the next cycle reverts
the edge — but to the captured baseline 200, not to its `default_weight`
100, refuting "after reverting all impacts every edge's weight equals
exactly its default_weight". -/
theorem incident_revert_not_default_weight :
    ∃ (gs1 gs2 : Graphs String) (st1 st2 : ImpactState String),
      applyIncidentImpacts [("Traffic", 2)] hav0
        [⟨some "Traffic", some 0, some 0, false, some 10⟩] c4Graphs cleanImpactState =
        (gs1, st1) ∧
      applyIncidentImpacts [("Traffic", 2)] hav0 [] gs1 st1 = (gs2, st2) ∧
      st2.modified_edges = [] ∧
      weightAt gs2 "bus" "A" "B" "trip1" = some 200 ∧
      defaultWeightAt gs2 "bus" "A" "B" "trip1" = some 100 ∧
      (200 : ℚ) ≠ 100 := by
  have hclosest : getClosestTransitEdge hav0 c4Graphs 0 0 =
      some (⟨"bus", "A", "B", "trip1", { weight := 200, default_weight := 100 }⟩, 0) := rfl
  obtain ⟨gs1, gs2, st1, st2, h1, hw1, hbase1, hmul1, hmod1, h2, hw2, hmul2, hmod2, hdef⟩ :=
    impact_cycle_spec [("Traffic", 2)] hav0 c4Graphs "Traffic" 2 0 0 false (some 10)
      ⟨"bus", "A", "B", "trip1", { weight := 200, default_weight := 100 }⟩ 0
      rfl (by norm_num) hclosest (by norm_num)
  refine ⟨gs1, gs2, st1, st2, h1, h2, hmod2, hw2, ?_, by norm_num⟩
  rw [hdef]
  rfl

/-- The stored document of a Facebook post, with the edge-impact bookkeeping
fields written by `approve_post`. -/
structure FBPost (V : Type) where
  latitude : Option ℚ := none
  longitude : Option ℚ := none
  approved : Bool := false
  edge_mode : Option String := none
  edge_source : Option V := none
  edge_target : Option V := none
  edge_key : Option String := none
  edge_weight_before : Option ℚ := none
  edge_weight_applied : Option ℚ := none
deriving DecidableEq

/-- `FacebookPostService.APPROVED_WEIGHT_MULTIPLIER`. -/
def APPROVED_WEIGHT_MULTIPLIER : ℚ := 2

/-- `FacebookPostService.approve_post`: resolve the nearest transit edge to
the post's coordinates, double its current weight, and record the
pre-approval weight on the post document.  The `none` results collapse the
source's `return False` paths (missing coordinates, no transit edge,
non-positive current weight). -/
def approvePost {V : Type} [DecidableEq V] (hav : ℚ → ℚ → ℚ → ℚ → ℚ) (gs : Graphs V)
    (post : FBPost V) : Option (Graphs V × FBPost V) :=
  match post.latitude, post.longitude with
  | some lat, some lon =>
    (match getClosestTransitEdge hav gs lat lon with
    | none => none
    | some (ev, _) =>
      let baseline := ev.data.weight
      if baseline ≤ 0 then none
      else
        let applied := baseline * APPROVED_WEIGHT_MULTIPLIER
        match updateEdge gs ev.mode ev.src ev.tgt (some ev.key) (some applied) none with
        | .error _ => none
        | .ok (gs', _) =>
          some (gs',
            { post with approved := true, edge_mode := some ev.mode,
                        edge_source := some ev.src, edge_target := some ev.tgt,
                        edge_key := some ev.key, edge_weight_before := some baseline,
                        edge_weight_applied := some applied }))
  | _, _ => none

/-- `FacebookPostService.revoke_post`: write the recorded pre-approval weight
back onto the recorded edge (best-effort: an invalid edge is ignored) and
mark the post unapproved. -/
def revokePost {V : Type} [DecidableEq V] (gs : Graphs V) (post : FBPost V) :
    Graphs V × FBPost V :=
  let gs' :=
    match post.edge_weight_before, post.edge_mode, post.edge_source, post.edge_target with
    | some b, some m, some s, some t =>
      if 0 < b then
        match updateEdge gs m s t post.edge_key (some b) none with
        | .ok (gs2, _) => gs2
        | .error _ => gs
      else gs
    | _, _, _, _ => gs
  (gs', { post with approved := false, edge_weight_applied := none })

/-- C10: approving a post whose coordinates resolve to an existing transit
edge multiplies that edge's current (pre-approval) weight by exactly 2.0 and
records the pre-approval weight; revoking the same post afterwards restores
the edge's weight to exactly the recorded value — the pre-approval weight,
not necessarily the edge's `default_weight`. -/
theorem facebook_approve_revoke_roundtrip {V : Type} [DecidableEq V]
    (hav : ℚ → ℚ → ℚ → ℚ → ℚ) (gs : Graphs V) (post : FBPost V) (lat lon : ℚ)
    (ev : EdgeView V) (d : ℚ)
    (hlat : post.latitude = some lat) (hlon : post.longitude = some lon)
    (hclosest : getClosestTransitEdge hav gs lat lon = some (ev, d))
    (hw : 0 < ev.data.weight) :
    ∃ (gs' gs'' : Graphs V) (post' post'' : FBPost V),
      approvePost hav gs post = some (gs', post') ∧
      weightAt gs' ev.mode ev.src ev.tgt ev.key = some (ev.data.weight * 2) ∧
      post'.edge_weight_before = some ev.data.weight ∧
      post'.approved = true ∧
      revokePost gs' post' = (gs'', post'') ∧
      weightAt gs'' ev.mode ev.src ev.tgt ev.key = some ev.data.weight ∧
      post''.approved = false ∧
      (∀ (m : String) (s' t' : V) (k' : String),
        defaultWeightAt gs'' m s' t' k' = defaultWeightAt gs m s' t' k') := by
  obtain ⟨g, e, hg, hf, hdata⟩ := getClosestTransitEdge_inv hav gs lat lon ev d hclosest
  have hkey : e.key = ev.key := (findEdge_mem_props g ev.src ev.tgt ev.key e hf).2.2.2
  have hr : resolveCandidate g ev.src ev.tgt (some ev.key) = some e := by
    rw [resolveCandidate_some_eq_findEdge]
    exact hf
  have happos : 0 < ev.data.weight * APPROVED_WEIGHT_MULTIPLIER := by
    unfold APPROVED_WEIGHT_MULTIPLIER
    exact mul_pos hw (by norm_num)
  obtain ⟨hupd1, hwAt1⟩ := updateEdge_weight_spec gs ev.mode ev.src ev.tgt (some ev.key)
    (ev.data.weight * APPROVED_WEIGHT_MULTIPLIER) g e hg hr happos
  rw [hkey] at hupd1 hwAt1
  have hg2 : getGraph (setGraph gs ev.mode { g with edges := replaceEdgeData g.edges ev.src ev.tgt ev.key { e.data with weight := ev.data.weight * APPROVED_WEIGHT_MULTIPLIER } }) ev.mode = some { g with edges := replaceEdgeData g.edges ev.src ev.tgt ev.key { e.data with weight := ev.data.weight * APPROVED_WEIGHT_MULTIPLIER } } :=
    getGraph_setGraph_self gs ev.mode g _ hg
  have hf2 : findEdge { g with edges := replaceEdgeData g.edges ev.src ev.tgt ev.key { e.data with weight := ev.data.weight * APPROVED_WEIGHT_MULTIPLIER } } ev.src ev.tgt ev.key = some { e with data := { e.data with weight := ev.data.weight * APPROVED_WEIGHT_MULTIPLIER } } := by
    have hrep := replaceEdgeData_of_find g.edges ev.src ev.tgt e.key
      { e.data with weight := ev.data.weight * APPROVED_WEIGHT_MULTIPLIER } e
      (resolveCandidate_findEdge_self g _ _ _ e hr)
    rw [hkey] at hrep
    unfold findEdge
    simp only
    rw [hrep, hkey]
  have hr2 : resolveCandidate { g with edges := replaceEdgeData g.edges ev.src ev.tgt ev.key { e.data with weight := ev.data.weight * APPROVED_WEIGHT_MULTIPLIER } } ev.src ev.tgt (some ev.key) = some { e with data := { e.data with weight := ev.data.weight * APPROVED_WEIGHT_MULTIPLIER } } := by
    rw [resolveCandidate_some_eq_findEdge]
    exact hf2
  obtain ⟨hupd2, hwAt2⟩ := updateEdge_weight_spec _ ev.mode ev.src ev.tgt (some ev.key)
    ev.data.weight _ _ hg2 hr2 hw
  rw [hkey] at hupd2 hwAt2
  have happrove : approvePost hav gs post = some (setGraph gs ev.mode { g with edges := replaceEdgeData g.edges ev.src ev.tgt ev.key { e.data with weight := ev.data.weight * APPROVED_WEIGHT_MULTIPLIER } }, { post with approved := true, edge_mode := some ev.mode, edge_source := some ev.src, edge_target := some ev.tgt, edge_key := some ev.key, edge_weight_before := some ev.data.weight, edge_weight_applied := some (ev.data.weight * APPROVED_WEIGHT_MULTIPLIER) }) := by
    unfold approvePost
    simp only [hlat, hlon, hclosest, if_neg (not_le.mpr hw), hupd1]
  have hrevoke : revokePost (setGraph gs ev.mode { g with edges := replaceEdgeData g.edges ev.src ev.tgt ev.key { e.data with weight := ev.data.weight * APPROVED_WEIGHT_MULTIPLIER } }) { post with approved := true, edge_mode := some ev.mode, edge_source := some ev.src, edge_target := some ev.tgt, edge_key := some ev.key, edge_weight_before := some ev.data.weight, edge_weight_applied := some (ev.data.weight * APPROVED_WEIGHT_MULTIPLIER) } = (setGraph (setGraph gs ev.mode { g with edges := replaceEdgeData g.edges ev.src ev.tgt ev.key { e.data with weight := ev.data.weight * APPROVED_WEIGHT_MULTIPLIER } }) ev.mode { { g with edges := replaceEdgeData g.edges ev.src ev.tgt ev.key { e.data with weight := ev.data.weight * APPROVED_WEIGHT_MULTIPLIER } } with edges := replaceEdgeData (replaceEdgeData g.edges ev.src ev.tgt ev.key { e.data with weight := ev.data.weight * APPROVED_WEIGHT_MULTIPLIER }) ev.src ev.tgt ev.key { { e.data with weight := ev.data.weight * APPROVED_WEIGHT_MULTIPLIER } with weight := ev.data.weight } }, { post with approved := false, edge_mode := some ev.mode, edge_source := some ev.src, edge_target := some ev.tgt, edge_key := some ev.key, edge_weight_before := some ev.data.weight, edge_weight_applied := none }) := by
    unfold revokePost
    simp only [if_pos hw, hupd2]
  refine ⟨_, _, _, _, happrove, ?_, rfl, rfl, hrevoke, ?_, rfl, ?_⟩
  · unfold APPROVED_WEIGHT_MULTIPLIER at hwAt1
    exact hwAt1
  · exact hwAt2
  · intro m s' t' k'
    rw [updateEdge_preserves_defaults _ ev.mode ev.src ev.tgt (some ev.key)
      (some ev.data.weight) none _ _ hupd2 m s' t' k']
    rw [updateEdge_preserves_defaults gs ev.mode ev.src ev.tgt (some ev.key)
      (some (ev.data.weight * APPROVED_WEIGHT_MULTIPLIER)) none _ _ hupd1 m s' t' k']

/-- `_edge_default_weight`: on built graphs every edge carries
`default_weight`, so the `weight` fallback of the source never fires. -/
def edgeDefaultWeight (d : EdgeData) : ℚ := d.default_weight

/-- `_edge_current_weight`. -/
def edgeCurrentWeight (d : EdgeData) : ℚ := d.weight

/-- `_is_edge_impacted`: current exceeds baseline by more than ε. -/
def isEdgeImpacted (d : EdgeData) : Bool :=
  decide (WEIGHT_EPSILON < edgeCurrentWeight d - edgeDefaultWeight d)

/-- Whether the multigraph has at least one directed edge between a pair. -/
def hasEdgeB {V : Type} [DecidableEq V] (g : ModeGraph V) (u v : V) : Bool :=
  g.edges.any (fun e => e.src == u && e.tgt == v)

/-- `_resolve_edge_for_path`: among the parallel edges of a node pair, the
first one of strictly minimal `default_weight`. -/
def resolveEdgeForPath {V : Type} [DecidableEq V] (g : ModeGraph V) (s t : V) :
    Option (Edge V) :=
  argminFold (fun e => edgeDefaultWeight e.data) (candidateEdges g s t)

/-- One entry of the per-segment detail of `_build_route_segments`. -/
structure RouteSegment (V : Type) where
  src : V
  tgt : V
  key : String
  default_weight : ℚ
  current_weight : ℚ
  impacted : Bool
deriving DecidableEq

/-- `_build_route_segments` over the consecutive pairs of a node sequence. -/
def buildRouteSegments {V : Type} [DecidableEq V] (g : ModeGraph V) :
    List V → Except ServiceError (List (RouteSegment V))
  | a :: b :: rest =>
    match resolveEdgeForPath g a b with
    | none => .error .noEdgeOnPath
    | some e =>
      match buildRouteSegments g (b :: rest) with
      | .error err => .error err
      | .ok segs =>
        .ok (⟨a, b, e.key, edgeDefaultWeight e.data, edgeCurrentWeight e.data,
              isEdgeImpacted e.data⟩ :: segs)
  | _ => .ok []

/-- `_graph_without_impacted_edges`. -/
def graphWithoutImpactedEdges {V : Type} [DecidableEq V] (g : ModeGraph V) : ModeGraph V :=
  { g with edges := g.edges.filter (fun e => !(isEdgeImpacted e.data)) }

/-- All duplicate-free paths from `u` to `t` avoiding `visited`, following
directed edges.  This enumeration underlies the shortest-path model below. -/
def pathsFrom {V : Type} [DecidableEq V] (g : ModeGraph V) :
    ℕ → V → V → List V → List (List V)
  | 0, _, _, _ => []
  | fuel + 1, u, t, visited =>
    if u == t then [[u]]
    else
      ((g.nodes.map Prod.fst).filter
          (fun v => hasEdgeB g u v && !(visited.contains v))).flatMap
        (fun v => (pathsFrom g fuel v t (u :: visited)).map (fun p => u :: p))

/-- The cost `nx.shortest_path` minimises with `weight="default_weight"`: the
sum over consecutive pairs of the minimum `default_weight` among parallel
edges. -/
def pathDefaultCost {V : Type} [DecidableEq V] (g : ModeGraph V) : List V → ℚ
  | a :: b :: rest =>
    (match resolveEdgeForPath g a b with
     | some e => edgeDefaultWeight e.data
     | none => 0) + pathDefaultCost g (b :: rest)
  | _ => 0

/-- `nx.shortest_path(graph, s, t, weight="default_weight")`, modelled
extensionally: a minimum-default-cost duplicate-free path (the graphs the
service builds have strictly positive weights, where Dijkstra returns such a
path); ties resolve to the first in enumeration order, deterministically. -/
def shortestPathDefault {V : Type} [DecidableEq V] (g : ModeGraph V) (s t : V) :
    Option (List V) :=
  argminFold (pathDefaultCost g) (pathsFrom g (g.nodes.length + 1) s t [])

/-- The payload shape of `_shape_route_payload`. -/
structure RoutePath (V : Type) where
  nodes : List V
  segments : List (RouteSegment V)
  total_default_weight : ℚ
  total_current_weight : ℚ
deriving DecidableEq

/-- The result shape of `plan_route_with_incidents`. -/
structure RoutePlan (V : Type) where
  incident_detected : Bool
  message : Option String
  default_path : RoutePath V
  suggested_path : Option (RoutePath V)
deriving DecidableEq

/-- `_shape_route_payload`. -/
def shapeRoutePayload {V : Type} (nodes : List V) (segs : List (RouteSegment V)) :
    RoutePath V :=
  ⟨nodes, segs, (segs.map (fun sg => sg.default_weight)).sum,
   (segs.map (fun sg => sg.current_weight)).sum⟩

/-- `plan_route_with_incidents`: default shortest path by baseline weights,
impact detection on its segments, and — only when impacted — an alternative
over the graph with impacted edges removed, kept when it differs from the
default node sequence. -/
def planRouteWithIncidents {V : Type} [DecidableEq V] (gs : Graphs V) (mode : String)
    (s t : V) : Except ServiceError (RoutePlan V) :=
  match getGraph gs mode with
  | none => .error (.unknownMode mode)
  | some g =>
    if ¬ (g.nodes.map Prod.fst).contains s then .error .missingNode
    else if ¬ (g.nodes.map Prod.fst).contains t then .error .missingNode
    else
      match shortestPathDefault g s t with
      | none => .error .noPath
      | some dnodes =>
        match buildRouteSegments g dnodes with
        | .error err => .error err
        | .ok dsegs =>
          let incident := dsegs.any (fun sg => sg.impacted)
          let alt? : Option (List V) :=
            if incident then shortestPathDefault (graphWithoutImpactedEdges g) s t
            else none
          match alt? with
          | none =>
            .ok ⟨incident,
                 if incident then
                   some "Incidents detected on the default path; no unaffected alternative was found."
                 else none,
                 shapeRoutePayload dnodes dsegs, none⟩
          | some anodes =>
            if anodes = dnodes then
              .ok ⟨incident,
                   some "Incidents detected on the default path; no unaffected alternative was found.",
                   shapeRoutePayload dnodes dsegs, none⟩
            else
              match buildRouteSegments g anodes with
              | .error err => .error err
              | .ok asegs =>
                .ok ⟨incident,
                     some "Incidents detected on the default path; alternative route suggested.",
                     shapeRoutePayload dnodes dsegs, some (shapeRoutePayload anodes asegs)⟩

theorem pathsFrom_head_chain {V : Type} [DecidableEq V] (g : ModeGraph V) (fuel : ℕ) :
    ∀ (u t : V) (visited : List V) (p : List V), p ∈ pathsFrom g fuel u t visited →
      p.head? = some u ∧ List.Chain' (fun a b => hasEdgeB g a b = true) p := by
  induction fuel with
  | zero =>
    intro u t visited p hp
    simp [pathsFrom] at hp
  | succ fuel ih =>
    intro u t visited p hp
    unfold pathsFrom at hp
    by_cases hut : (u == t) = true
    · rw [if_pos hut] at hp
      simp only [List.mem_singleton] at hp
      subst hp
      exact ⟨rfl, List.chain'_singleton u⟩
    · rw [if_neg hut] at hp
      obtain ⟨v, hv, hpm⟩ := List.mem_flatMap.mp hp
      obtain ⟨q, hq, hqe⟩ := List.mem_map.mp hpm
      subst hqe
      have hpred := List.of_mem_filter hv
      simp only [Bool.and_eq_true] at hpred
      obtain ⟨hhead, hchain⟩ := ih v t (u :: visited) q hq
      refine ⟨rfl, ?_⟩
      cases q with
      | nil => simp at hhead
      | cons w q' =>
        simp only [List.head?_cons, Option.some.injEq] at hhead
        subst hhead
        exact List.chain'_cons.mpr ⟨hpred.1, hchain⟩

theorem candidateEdges_ne_nil_of_hasEdge {V : Type} [DecidableEq V] (g : ModeGraph V)
    (a b : V) (h : hasEdgeB g a b = true) : candidateEdges g a b ≠ [] := by
  unfold hasEdgeB at h
  obtain ⟨e, he, hpred⟩ := List.any_eq_true.mp h
  exact List.ne_nil_of_mem (List.mem_filter.mpr ⟨he, hpred⟩)

theorem isEdgeImpacted_false_of_clean (d : EdgeData) (h : d.weight = d.default_weight) :
    isEdgeImpacted d = false := by
  unfold isEdgeImpacted edgeCurrentWeight edgeDefaultWeight
  rw [h, sub_self]
  apply decide_eq_false
  unfold WEIGHT_EPSILON
  norm_num

theorem buildRouteSegments_clean {V : Type} [DecidableEq V] (g : ModeGraph V)
    (hclean : ∀ e ∈ g.edges, e.data.weight = e.data.default_weight) :
    ∀ p : List V, List.Chain' (fun a b => hasEdgeB g a b = true) p →
      ∃ segs : List (RouteSegment V), buildRouteSegments g p = .ok segs ∧
        ∀ sg ∈ segs, sg.current_weight = sg.default_weight ∧ sg.impacted = false := by
  intro p
  induction p with
  | nil =>
    intro _
    exact ⟨[], rfl, by simp⟩
  | cons a rest ih =>
    intro hchain
    cases rest with
    | nil => exact ⟨[], rfl, by simp⟩
    | cons b rest' =>
      have hedge : hasEdgeB g a b = true := (List.chain'_cons.mp hchain).1
      have hchain' := (List.chain'_cons.mp hchain).2
      obtain ⟨segs, hbuild, hprops⟩ := ih hchain'
      have hres : ∃ e, resolveEdgeForPath g a b = some e := by
        cases hr : resolveEdgeForPath g a b with
        | none =>
          unfold resolveEdgeForPath at hr
          rw [argminFold_eq_none] at hr
          exact absurd hr (candidateEdges_ne_nil_of_hasEdge g a b hedge)
        | some e => exact ⟨e, rfl⟩
      obtain ⟨e, hr⟩ := hres
      have hemem : e ∈ g.edges := by
        have := argminFold_mem _ _ _ hr
        exact List.mem_of_mem_filter this
      have heq : e.data.weight = e.data.default_weight := hclean e hemem
      refine ⟨⟨a, b, e.key, edgeDefaultWeight e.data, edgeCurrentWeight e.data,
        isEdgeImpacted e.data⟩ :: segs, ?_, ?_⟩
      · unfold buildRouteSegments
        rw [hr, hbuild]
      · intro sg hsg
        rcases List.mem_cons.mp hsg with rfl | hsg
        · constructor
          · unfold edgeCurrentWeight edgeDefaultWeight
            exact heq
          · exact isEdgeImpacted_false_of_clean e.data heq
        · exact hprops sg hsg

/-- C7: on a graph where no edge deviates from its baseline (the state right
after construction), `plan_route_with_incidents` — for any mode found and any
source/target pair recognised and connected by the router — reports
`incident_detected = false`, suggests no alternative path, carries no
message, and returns a default path whose current-weight total equals its
default-weight total. -/
theorem plan_route_unmodified_no_incident {V : Type} [DecidableEq V] (gs : Graphs V)
    (mode : String) (s t : V) (g : ModeGraph V) (p : List V)
    (hg : getGraph gs mode = some g)
    (hclean : ∀ e ∈ g.edges, e.data.weight = e.data.default_weight)
    (hs : (g.nodes.map Prod.fst).contains s = true)
    (ht : (g.nodes.map Prod.fst).contains t = true)
    (hpath : shortestPathDefault g s t = some p) :
    ∃ r : RoutePlan V, planRouteWithIncidents gs mode s t = .ok r ∧
      r.incident_detected = false ∧ r.suggested_path = none ∧ r.message = none ∧
      r.default_path.total_current_weight = r.default_path.total_default_weight := by
  have hmem : p ∈ pathsFrom g (g.nodes.length + 1) s t [] := argminFold_mem _ _ _ hpath
  have hchain := (pathsFrom_head_chain g (g.nodes.length + 1) s t [] p hmem).2
  obtain ⟨segs, hbuild, hprops⟩ := buildRouteSegments_clean g hclean p hchain
  have hnoinc : segs.any (fun sg => sg.impacted) = false := by
    rw [List.any_eq_false]
    intro sg hsg
    rw [(hprops sg hsg).2]
    exact Bool.false_ne_true
  refine ⟨⟨false, none, shapeRoutePayload p segs, none⟩, ?_, rfl, rfl, rfl, ?_⟩
  · unfold planRouteWithIncidents
    simp only [hg]
    rw [if_neg (not_not_intro hs), if_neg (not_not_intro ht)]
    simp only [hpath, hbuild, hnoinc, Bool.false_eq_true, if_false]
  · unfold shapeRoutePayload
    simp only
    congr 1
    apply List.map_congr_left
    intro sg hsg
    exact (hprops sg hsg).1

/-- The symmetrised adjacency underlying weak connectivity: a directed edge
in either direction. -/
def symAdjB {V : Type} [DecidableEq V] (g : ModeGraph V) (u v : V) : Bool :=
  hasEdgeB g u v || hasEdgeB g v u

/-- The undirected simple graph on which `nx.weakly_connected_components`
computes. -/
def toSimple {V : Type} [DecidableEq V] (g : ModeGraph V) : SimpleGraph V where
  Adj u v := u ≠ v ∧ symAdjB g u v = true
  symm := by
    intro u v hadj
    refine ⟨hadj.1.symm, ?_⟩
    have h2 := hadj.2
    unfold symAdjB at h2 ⊢
    rw [Bool.or_comm]
    exact h2
  loopless := fun v h => h.1 rfl

instance toSimpleAdjDecidable {V : Type} [DecidableEq V] (g : ModeGraph V) :
    DecidableRel (toSimple g).Adj :=
  fun u v => inferInstanceAs (Decidable (u ≠ v ∧ symAdjB g u v = true))

/-- Executable reachability in the symmetrised graph. -/
def reachb {V : Type} [DecidableEq V] [Fintype V] (g : ModeGraph V) (u v : V) : Bool :=
  decide ((toSimple g).Reachable u v)

theorem reachb_iff {V : Type} [DecidableEq V] [Fintype V] (g : ModeGraph V) (u v : V) :
    reachb g u v = true ↔ (toSimple g).Reachable u v :=
  decide_eq_true_iff

/-- Decides `len(nx.weakly_connected_components(graph)) ≤ 1`: the component
of the first node covers every node. -/
def isWeaklyConnectedB {V : Type} [DecidableEq V] [Fintype V] (g : ModeGraph V) : Bool :=
  match g.nodes.map Prod.fst with
  | [] => true
  | h :: rest => (h :: rest).all (fun v => reachb g h v)

/-- The `(source, target)` pairs scanned by `_ensure_connected`: `source` in
the first component (the component of the first node), `target` outside it,
zero-distance pairs skipped. -/
def connectorCandidates {V : Type} [DecidableEq V] [Fintype V] (g : ModeGraph V)
    (dist : V → V → ℚ) (h : V) : List (V × V) :=
  (g.nodes.map Prod.fst).flatMap (fun s =>
    if reachb g h s then
      ((g.nodes.map Prod.fst).filter
          (fun t => !(reachb g h t) && !(decide (dist s t = 0)))).map (fun t => (s, t))
    else [])

/-- The geographically closest candidate pair (strict-minimum scan). -/
def bestConnectorPair {V : Type} [DecidableEq V] [Fintype V] (g : ModeGraph V)
    (dist : V → V → ℚ) (h : V) : Option (V × V) :=
  argminFold (fun pr => dist pr.1 pr.2) (connectorCandidates g dist h)

/-- Insert the symmetric pair of connector edges of `_ensure_connected`
(the per-direction key strings of the source carry no semantics and are
collapsed to a constant here). -/
def addConnectorPair {V : Type} (g : ModeGraph V) (dist : V → V → ℚ) (speed : ℚ)
    (s t : V) : ModeGraph V :=
  let dk := dist s t
  let w := travelTimeSeconds dk speed
  let payload : EdgeData :=
    { weight := w, default_weight := w, distance_km := some dk,
      speed_kmh := some speed, connector := true }
  { g with edges := g.edges ++ [⟨s, t, "connector", payload⟩, ⟨t, s, "connector", payload⟩] }

/-- `_ensure_connected`: repeatedly join the first weak component to the
nearest node outside it.  The source's `while True` loop is modelled with
fuel; each successful round strictly grows the first component, so
`nodes.length` rounds always suffice (see `ensureConnected_preconnected`). -/
def ensureConnected {V : Type} [DecidableEq V] [Fintype V] (dist : V → V → ℚ)
    (speed : ℚ) : ℕ → ModeGraph V → ModeGraph V
  | 0, g => g
  | fuel + 1, g =>
    if isWeaklyConnectedB g then g
    else
      match g.nodes.map Prod.fst with
      | [] => g
      | h :: _ =>
        match bestConnectorPair g dist h with
        | none => g
        | some (s, t) =>
          ensureConnected dist speed fuel (addConnectorPair g dist speed s t)

theorem addConnectorPair_nodes {V : Type} (g : ModeGraph V) (dist : V → V → ℚ)
    (speed : ℚ) (s t : V) : (addConnectorPair g dist speed s t).nodes = g.nodes := rfl

theorem toSimple_le_addConnectorPair {V : Type} [DecidableEq V] (g : ModeGraph V)
    (dist : V → V → ℚ) (speed : ℚ) (s t : V) :
    toSimple g ≤ toSimple (addConnectorPair g dist speed s t) := by
  intro u v hadj
  refine ⟨hadj.1, ?_⟩
  have h2 := hadj.2
  unfold symAdjB hasEdgeB at h2 ⊢
  unfold addConnectorPair
  simp only [List.any_append, Bool.or_eq_true] at h2 ⊢
  rcases h2 with h | h
  · exact Or.inl (Or.inl h)
  · exact Or.inr (Or.inl h)

theorem addConnectorPair_adj {V : Type} [DecidableEq V] (g : ModeGraph V)
    (dist : V → V → ℚ) (speed : ℚ) (s t : V) (hst : s ≠ t) :
    (toSimple (addConnectorPair g dist speed s t)).Adj s t := by
  refine ⟨hst, ?_⟩
  unfold symAdjB hasEdgeB addConnectorPair
  simp only [List.any_append, List.any_cons, List.any_nil, Bool.or_eq_true]
  left
  right
  left
  simp

theorem connectorCandidates_mem {V : Type} [DecidableEq V] [Fintype V] (g : ModeGraph V)
    (dist : V → V → ℚ) (h : V) (s t : V)
    (hmem : (s, t) ∈ connectorCandidates g dist h) :
    reachb g h s = true ∧ reachb g h t = false ∧ ¬ dist s t = 0 := by
  unfold connectorCandidates at hmem
  obtain ⟨s', hs', hmem2⟩ := List.mem_flatMap.mp hmem
  by_cases hr : reachb g h s' = true
  · rw [if_pos hr] at hmem2
    obtain ⟨t', ht', hte⟩ := List.mem_map.mp hmem2
    have hpred := List.of_mem_filter ht'
    simp only [Bool.and_eq_true, Bool.not_eq_true', decide_eq_false_iff_not] at hpred
    obtain ⟨hse, hte2⟩ := Prod.mk.injEq s' t' s t ▸ hte
    subst hse
    subst hte2
    exact ⟨hr, hpred.1, hpred.2⟩
  · rw [if_neg hr] at hmem2
    exact absurd hmem2 (List.not_mem_nil _)

theorem connectorCandidates_intro {V : Type} [DecidableEq V] [Fintype V]
    (g : ModeGraph V) (dist : V → V → ℚ) (h t : V)
    (hh : h ∈ g.nodes.map Prod.fst) (ht : t ∈ g.nodes.map Prod.fst)
    (hrt : reachb g h t = false) (hd : ¬ dist h t = 0) :
    (h, t) ∈ connectorCandidates g dist h := by
  unfold connectorCandidates
  refine List.mem_flatMap.mpr ⟨h, hh, ?_⟩
  have hrh : reachb g h h = true := (reachb_iff g h h).mpr (SimpleGraph.Reachable.refl h)
  rw [if_pos hrh]
  refine List.mem_map.mpr ⟨t, ?_, rfl⟩
  refine List.mem_filter.mpr ⟨ht, ?_⟩
  simp only [Bool.and_eq_true, Bool.not_eq_true', decide_eq_false_iff_not]
  exact ⟨hrt, hd⟩

/-- Nodes of the first weak component that are still unreached from the head
node; the decreasing measure of the `_ensure_connected` loop. -/
def unreachedCount {V : Type} [DecidableEq V] [Fintype V] (g : ModeGraph V) : ℕ :=
  match g.nodes.map Prod.fst with
  | [] => 0
  | h :: rest => ((h :: rest).filter (fun v => !(reachb g h v))).length

theorem preconnected_of_all_reach {V : Type} [DecidableEq V] [Fintype V]
    (g : ModeGraph V) (h : V) (rest : List V)
    (hn : g.nodes.map Prod.fst = h :: rest)
    (hall : ∀ v ∈ h :: rest, reachb g h v = true)
    (hnodes : ∀ v : V, v ∈ g.nodes.map Prod.fst) :
    (toSimple g).Preconnected := by
  intro u v
  have hu : u ∈ h :: rest := hn ▸ hnodes u
  have hv : v ∈ h :: rest := hn ▸ hnodes v
  have hru := (reachb_iff g h u).mp (hall u hu)
  have hrv := (reachb_iff g h v).mp (hall v hv)
  exact hru.symm.trans hrv

theorem reachb_mono_addConnectorPair {V : Type} [DecidableEq V] [Fintype V]
    (g : ModeGraph V) (dist : V → V → ℚ) (speed : ℚ) (s t u v : V)
    (h : reachb g u v = true) :
    reachb (addConnectorPair g dist speed s t) u v = true := by
  rw [reachb_iff] at h ⊢
  exact h.mono (toSimple_le_addConnectorPair g dist speed s t)

theorem ensureConnected_preconnected {V : Type} [DecidableEq V] [Fintype V]
    (dist : V → V → ℚ) (speed : ℚ) (fuel : ℕ) :
    ∀ g : ModeGraph V, (∀ v : V, v ∈ g.nodes.map Prod.fst) →
      (∀ u v : V, u ≠ v → ¬ dist u v = 0) → unreachedCount g ≤ fuel →
      (toSimple (ensureConnected dist speed fuel g)).Preconnected := by
  induction fuel with
  | zero =>
    intro g hnodes hd hfuel
    unfold ensureConnected
    cases hn : g.nodes.map Prod.fst with
    | nil =>
      intro u v
      exact absurd (hn ▸ hnodes u) (List.not_mem_nil u)
    | cons h rest =>
      unfold unreachedCount at hfuel
      rw [hn] at hfuel
      simp only [Nat.le_zero, List.length_eq_zero, List.filter_eq_nil_iff] at hfuel
      refine preconnected_of_all_reach g h rest hn ?_ hnodes
      intro v hv
      have := hfuel v hv
      simp only [Bool.not_eq_true', Bool.not_eq_false] at this
      exact this
  | succ fuel ih =>
    intro g hnodes hd hfuel
    unfold ensureConnected
    by_cases hcon : isWeaklyConnectedB g = true
    · rw [if_pos hcon]
      cases hn : g.nodes.map Prod.fst with
      | nil =>
        intro u v
        exact absurd (hn ▸ hnodes u) (List.not_mem_nil u)
      | cons h rest =>
        unfold isWeaklyConnectedB at hcon
        rw [hn] at hcon
        exact preconnected_of_all_reach g h rest hn (List.all_eq_true.mp hcon) hnodes
    · rw [if_neg hcon]
      cases hn : g.nodes.map Prod.fst with
      | nil =>
        exfalso
        apply hcon
        unfold isWeaklyConnectedB
        rw [hn]
      | cons h rest =>
        have hcon' : isWeaklyConnectedB g = false := Bool.not_eq_true _ ▸ eq_false_of_ne_true hcon
        have hex : ∃ t0 ∈ h :: rest, reachb g h t0 = false := by
          unfold isWeaklyConnectedB at hcon'
          rw [hn] at hcon'
          obtain ⟨t0, ht0, hr0⟩ := List.all_eq_false.mp hcon'
          exact ⟨t0, ht0, Bool.not_eq_true _ ▸ eq_false_of_ne_true hr0⟩
        obtain ⟨t0, ht0mem, ht0⟩ := hex
        have hh : h ∈ g.nodes.map Prod.fst := by
          rw [hn]
          exact List.mem_cons_self h rest
        have hht0 : h ≠ t0 := by
          intro hc
          rw [← hc] at ht0
          rw [(reachb_iff g h h).mpr (SimpleGraph.Reachable.refl h)] at ht0
          exact Bool.noConfusion ht0
        have hcand : (h, t0) ∈ connectorCandidates g dist h :=
          connectorCandidates_intro g dist h t0 hh (hn ▸ ht0mem) ht0 (hd h t0 hht0)
        cases hbest : bestConnectorPair g dist h with
        | none =>
          exfalso
          unfold bestConnectorPair at hbest
          rw [argminFold_eq_none] at hbest
          rw [hbest] at hcand
          exact List.not_mem_nil _ hcand
        | some pr =>
          obtain ⟨s', t'⟩ := pr
          have hmem := argminFold_mem _ _ _ hbest
          obtain ⟨hrs', hrt', hdst⟩ := connectorCandidates_mem g dist h s' t' hmem
          have hs't' : s' ≠ t' := by
            intro hc
            rw [hc] at hrs'
            rw [hrs'] at hrt'
            exact Bool.noConfusion hrt'
          have hreach_t' : reachb (addConnectorPair g dist speed s' t') h t' = true := by
            rw [reachb_iff]
            have h1 : (toSimple (addConnectorPair g dist speed s' t')).Reachable h s' := by
              have := (reachb_iff g h s').mp hrs'
              exact this.mono (toSimple_le_addConnectorPair g dist speed s' t')
            exact h1.trans (addConnectorPair_adj g dist speed s' t' hs't').reachable
          have hmono : ∀ v : V, reachb g h v = true →
              reachb (addConnectorPair g dist speed s' t') h v = true :=
            fun v => reachb_mono_addConnectorPair g dist speed s' t' h v
          have hdec : unreachedCount (addConnectorPair g dist speed s' t') <
              unreachedCount g := by
            unfold unreachedCount
            rw [addConnectorPair_nodes, hn]
            have hsub : List.Sublist
                ((h :: rest).filter
                  (fun v => !(reachb (addConnectorPair g dist speed s' t') h v)))
                ((h :: rest).filter (fun v => !(reachb g h v))) := by
              apply List.monotone_filter_right
              intro a ha
              simp only [Bool.not_eq_true'] at ha ⊢
              by_contra hc
              rw [Bool.not_eq_false] at hc
              rw [hmono a hc] at ha
              exact Bool.noConfusion ha
            have hlen := hsub.length_le
            rcases Nat.lt_or_ge ((h :: rest).filter
                (fun v => !(reachb (addConnectorPair g dist speed s' t') h v))).length
                ((h :: rest).filter (fun v => !(reachb g h v))).length with hlt | hge
            · exact hlt
            · exfalso
              have heq := hsub.eq_of_length (Nat.le_antisymm hlen hge)
              have ht'in : t' ∈ (h :: rest).filter (fun v => !(reachb g h v)) := by
                refine List.mem_filter.mpr ⟨?_, ?_⟩
                · exact hn ▸ hnodes t'
                · rw [hrt']
                  rfl
              rw [← heq] at ht'in
              have := List.of_mem_filter ht'in
              rw [hreach_t'] at this
              simp at this
          simp only [hbest]
          exact ih (addConnectorPair g dist speed s' t')
            (fun v => by rw [addConnectorPair_nodes]; exact hnodes v) hd
            (Nat.le_of_lt_succ (Nat.lt_of_lt_of_le hdec hfuel))

/-! ### The Graph Builder (`_build_graphs_sync` and helpers)

The GTFS tables that the builder reads are embedded as row lists; the stop-id
type is abstracted to any type `V` with decidable equality (the service uses
strings), finite when connectivity must be decided.  Stop ids are unique in a
GTFS feed, so the `nodes_payload` dictionary is the stop list itself. -/

/-- One row of `feed.stops` as consumed by `_build_graphs_sync`. -/
structure StopRow (V : Type) where
  stop_id : V
  stop_lat : ℚ
  stop_lon : ℚ
deriving DecidableEq

/-- One row of `feed.stop_times`, with `arrival_time` already converted to
seconds by `_time_to_seconds`. -/
structure StopTimeRow (V : Type) where
  trip_id : String
  stop_id : V
  stop_sequence : ℕ
  arrival_seconds : ℚ
deriving DecidableEq

/-- One row of `feed.trips` (the two columns the builder projects). -/
structure TripRow where
  trip_id : String
  route_id : String
deriving DecidableEq

/-- One row of `feed.routes` (the columns the builder projects; the route
names are never read by the graph topology). -/
structure RouteRow where
  route_id : String
  route_type : ℤ
deriving DecidableEq

/-- The GTFS feed after `_narrow_feed_to_single_date`. -/
structure Feed (V : Type) where
  stops : List (StopRow V)
  stop_times : List (StopTimeRow V)
  trips : List TripRow
  routes : List RouteRow
deriving DecidableEq

/-- `nodes_payload`: stop id to geographic attributes, in stop order. -/
def nodesPayload {V : Type} (feed : Feed V) : List (V × NodeData) :=
  feed.stops.map (fun s => (s.stop_id, { latitude := s.stop_lat, longitude := s.stop_lon }))

/-- `_ROUTE_TYPE_LABELS`. -/
def ROUTE_TYPE_LABELS : List (ℤ × String) :=
  [(0, "tram"), (1, "subway"), (2, "rail"), (3, "bus"), (4, "ferry"), (5, "cable_tram"), (6, "aerial_lift"), (7, "funicular"), (11, "trolleybus"), (12, "monorail")]

/-- `self._ROUTE_TYPE_LABELS.get(int(mode), f"route_type_\x7bint(mode)\x7d")`. -/
def routeTypeLabel (n : ℤ) : String :=
  (alistGet? ROUTE_TYPE_LABELS n).getD ("route_type_" ++ toString n)

/-- The sort key of `stop_times.sort_values(["trip_id", "stop_sequence"])`. -/
def stopTimeLE {V : Type} (a b : StopTimeRow V) : Prop :=
  a.trip_id < b.trip_id ∨ (a.trip_id = b.trip_id ∧ a.stop_sequence ≤ b.stop_sequence)

instance stopTimeLEDec {V : Type} : DecidableRel (@stopTimeLE V) := fun a b => by
  unfold stopTimeLE
  infer_instance

/-- Consecutive row pairs of a list (`shift(-1)` pairs each row with its
successor). -/
def consecutivePairs {α : Type} : List α → List (α × α)
  | [] => []
  | [_] => []
  | a :: b :: rest => (a, b) :: consecutivePairs (b :: rest)

/-- The rows of `merged`: sort `stop_times` by `(trip_id, stop_sequence)`,
pair each row with its successor inside the same trip group (`groupby
shift(-1)` yields `NaN`, dropped by `dropna`, at group boundaries). -/
def segmentRows {V : Type} [DecidableEq V] (feed : Feed V) :
    List (StopTimeRow V × StopTimeRow V) :=
  (consecutivePairs (List.insertionSort (@stopTimeLE V) feed.stop_times)).filter
    (fun p => p.1.trip_id == p.2.trip_id)

/-- The `route_type` of a trip after the two left merges; `none` (a `NaN`
key, dropped by `groupby`) when the trip or its route is absent. -/
def segmentRouteType {V : Type} (feed : Feed V) (trip : String) : Option ℤ :=
  match feed.trips.find? (fun t => t.trip_id == trip) with
  | none => none
  | some tr =>
    match feed.routes.find? (fun r => r.route_id == tr.route_id) with
    | none => none
    | some r => some r.route_type

/-- The distinct `route_type` keys of `merged.groupby("route_type")`, in the
ascending key order that pandas iterates. -/
def presentRouteTypes {V : Type} [DecidableEq V] (feed : Feed V) : List ℤ :=
  List.insertionSort (fun a b : ℤ => a ≤ b)
    (((segmentRows feed).filterMap (fun p => segmentRouteType feed p.1.trip_id)).dedup)

/-- The payload of one transit segment edge (`weight`/`default_weight` both
the segment duration; no distance or speed is stored on transit edges). -/
def transitEdgeData (duration : ℚ) : EdgeData :=
  { weight := duration, default_weight := duration, distance_km := none, speed_kmh := none, connector := false }

/-- `graph.add_edge(source, target, key=key, ...)`: replace the payload when
the keyed edge already exists, else append it (both endpoints are already
nodes: every stop is). -/
def addEdgeKeyed {V : Type} [DecidableEq V] (g : ModeGraph V) (e : Edge V) : ModeGraph V :=
  if g.edges.any (fun e0 => e0.src == e.src && e0.tgt == e.tgt && e0.key == e.key) then
    { g with edges := replaceEdgeData g.edges e.src e.tgt e.key e.data }
  else { g with edges := g.edges ++ [e] }

/-- One mode graph of `_build_transit_graphs`: every stop is a node; each
segment row of the group adds the keyed edge `(stop, next_stop, trip_id)`
unless its duration is nonpositive. -/
def buildModeGraph {V : Type} [DecidableEq V] (feed : Feed V) (rt : ℤ) : ModeGraph V :=
  (segmentRows feed).foldl (fun g p =>
    if segmentRouteType feed p.1.trip_id = some rt then
      if p.2.arrival_seconds - p.1.arrival_seconds ≤ 0 then g
      else addEdgeKeyed g ⟨p.1.stop_id, p.2.stop_id, p.1.trip_id, transitEdgeData (p.2.arrival_seconds - p.1.arrival_seconds)⟩
    else g)
    { mode := routeTypeLabel rt, nodes := nodesPayload feed, edges := [] }

/-- `_build_transit_graphs`: one graph per `route_type` present in the merged
segment table.  No connectivity repair happens here. -/
def buildTransitGraphs {V : Type} [DecidableEq V] (feed : Feed V) : Graphs V :=
  (presentRouteTypes feed).map (fun rt => (routeTypeLabel rt, buildModeGraph feed rt))

/-- `_distance_between_nodes`: haversine of the two nodes' stored
coordinates (the lookups always succeed for graph nodes; the 0 fallback is
unreachable on built graphs). -/
def nodeDistance {V : Type} [DecidableEq V] (hav : ℚ → ℚ → ℚ → ℚ → ℚ)
    (payload : List (V × NodeData)) (u v : V) : ℚ :=
  match alistGet? payload u, alistGet? payload v with
  | some a, some b => hav a.latitude a.longitude b.latitude b.longitude
  | _, _ => 0

/-- The `(source, target)` pairs scanned by `_build_walking_graph`, over the
base graphs in dictionary order, edges in insertion order. -/
def walkingCandidateEdges {V : Type} (base : Graphs V) : List (V × V) :=
  base.flatMap (fun p => p.2.edges.map (fun e => (e.src, e.tgt)))

/-- One step of the `walking_edges` accumulation: skip self loops and
zero-distance pairs, then install the candidate payload under the pair and
its reverse whenever it is new or strictly faster. -/
def addWalkingCandidate {V : Type} [DecidableEq V] (hav : ℚ → ℚ → ℚ → ℚ → ℚ)
    (payload : List (V × NodeData)) (walkSpeed : ℚ)
    (acc : List ((V × V) × EdgeData)) (pr : V × V) : List ((V × V) × EdgeData) :=
  if pr.1 = pr.2 then acc
  else if nodeDistance hav payload pr.1 pr.2 = 0 then acc
  else
    let dk := nodeDistance hav payload pr.1 pr.2
    let w := travelTimeSeconds dk walkSpeed
    let cand : EdgeData := { weight := w, default_weight := w, distance_km := some dk, speed_kmh := some walkSpeed, connector := false }
    let acc1 := match alistGet? acc (pr.1, pr.2) with
      | none => alistSet acc (pr.1, pr.2) cand
      | some old => if w < old.weight then alistSet acc (pr.1, pr.2) cand else acc
    match alistGet? acc1 (pr.2, pr.1) with
    | none => alistSet acc1 (pr.2, pr.1) cand
    | some old => if w < old.weight then alistSet acc1 (pr.2, pr.1) cand else acc1

/-- The walking graph before `_ensure_connected`: all stops as nodes and the
accumulated `walking_edges` dictionary as keyed edges (the per-pair
`walk-...` key strings carry no semantics and are collapsed to `"walk"`). -/
def walkingBaseGraph {V : Type} [DecidableEq V] (hav : ℚ → ℚ → ℚ → ℚ → ℚ)
    (walkSpeed : ℚ) (payload : List (V × NodeData)) (base : Graphs V) : ModeGraph V :=
  { mode := "walking", nodes := payload,
    edges := ((walkingCandidateEdges base).foldl (addWalkingCandidate hav payload walkSpeed) []).map (fun pe => ⟨pe.1.1, pe.1.2, "walk", pe.2⟩) }

/-- `_build_walking_graph`: derive walking edges from stop adjacency, then
repair connectivity (`payload.length` rounds of fuel always suffice, see
`unreachedCount_le_length`). -/
def buildWalkingGraph {V : Type} [DecidableEq V] [Fintype V] (hav : ℚ → ℚ → ℚ → ℚ → ℚ)
    (walkSpeed : ℚ) (payload : List (V × NodeData)) (base : Graphs V) : ModeGraph V :=
  ensureConnected (nodeDistance hav payload) walkSpeed payload.length
    (walkingBaseGraph hav walkSpeed payload base)

/-- The bike graph before `_ensure_connected`: the walking topology with
every distance-carrying payload re-timed at bike speed between
bike-accessible endpoints and at walking speed otherwise. -/
def bikeBaseGraph {V : Type} (walkSpeed bikeSpeed : ℚ) (acc : V → Bool)
    (walking : ModeGraph V) : ModeGraph V :=
  { mode := "bike", nodes := walking.nodes,
    edges := walking.edges.map (fun e =>
      match e.data.distance_km with
      | none => e
      | some dk => ⟨e.src, e.tgt, e.key, { weight := travelTimeSeconds dk (if acc e.src && acc e.tgt then bikeSpeed else walkSpeed), default_weight := travelTimeSeconds dk (if acc e.src && acc e.tgt then bikeSpeed else walkSpeed), distance_km := some dk, speed_kmh := some (if acc e.src && acc e.tgt then bikeSpeed else walkSpeed), connector := e.data.connector }⟩) }

/-- `_refresh_bike_graph`: rebuild the bike graph from the walking topology
(`acc` is the `bike_accessible` node flag written by
`_annotate_bike_accessible_nodes`; constantly `false` when no bike parking is
registered), then repair connectivity at bike speed. -/
def refreshBikeGraph {V : Type} [DecidableEq V] [Fintype V] (hav : ℚ → ℚ → ℚ → ℚ → ℚ)
    (walkSpeed bikeSpeed : ℚ) (acc : V → Bool) (walking : ModeGraph V) : ModeGraph V :=
  ensureConnected (nodeDistance hav walking.nodes) bikeSpeed walking.nodes.length
    (bikeBaseGraph walkSpeed bikeSpeed acc walking)

/-- `_build_graphs_sync`: the transit graphs, then the walking graph stored
under `"walking"` (dictionary override), then the bike graph stored under
`"bike"`. -/
def buildGraphsSync {V : Type} [DecidableEq V] [Fintype V] (hav : ℚ → ℚ → ℚ → ℚ → ℚ)
    (walkSpeed bikeSpeed : ℚ) (acc : V → Bool) (feed : Feed V) : Graphs V :=
  alistSet
    (alistSet (buildTransitGraphs feed) "walking"
      (buildWalkingGraph hav walkSpeed (nodesPayload feed) (buildTransitGraphs feed)))
    "bike"
    (refreshBikeGraph hav walkSpeed bikeSpeed acc
      (buildWalkingGraph hav walkSpeed (nodesPayload feed) (buildTransitGraphs feed)))

theorem alistGet?_map_set_self {α β : Type} [DecidableEq α] (a : α) (b : β) :
    ∀ l : List (α × β), (l.find? (fun p => p.1 == a)).isSome = true →
      alistGet? (l.map (fun p => if (p.1 == a) = true then (a, b) else p)) a = some b := by
  intro l
  induction l with
  | nil => intro hf; simp [List.find?_nil] at hf
  | cons p rest ih =>
    intro hf
    unfold alistGet?
    rw [List.map_cons, List.find?_cons]
    by_cases hp : (p.1 == a) = true
    · rw [if_pos hp]
      simp only [beq_self_eq_true]
      rfl
    · rw [List.find?_cons] at hf
      simp only [hp] at hf
      rw [if_neg (by simp [hp])]
      simp only [hp]
      have := ih hf
      unfold alistGet? at this
      exact this

theorem alistGet?_append_set_self {α β : Type} [DecidableEq α] (a : α) (b : β) :
    ∀ l : List (α × β), (l.find? (fun p => p.1 == a)).isSome = false →
      alistGet? (l ++ [(a, b)]) a = some b := by
  intro l
  induction l with
  | nil =>
    intro _
    unfold alistGet?
    rw [List.nil_append, List.find?_cons]
    simp only [beq_self_eq_true]
    rfl
  | cons p rest ih =>
    intro hf
    rw [List.find?_cons] at hf
    by_cases hp : (p.1 == a) = true
    · rw [hp] at hf
      simp at hf
    · simp only [hp] at hf
      have := ih hf
      unfold alistGet? at this ⊢
      rw [List.cons_append, List.find?_cons]
      simp only [hp]
      exact this

theorem alistGet?_alistSet_self {α β : Type} [DecidableEq α] (l : List (α × β))
    (a : α) (b : β) : alistGet? (alistSet l a b) a = some b := by
  unfold alistSet
  by_cases hf : (l.find? (fun p => p.1 == a)).isSome
  · rw [if_pos hf]
    exact alistGet?_map_set_self a b l hf
  · rw [if_neg hf]
    exact alistGet?_append_set_self a b l (eq_false_of_ne_true hf)

theorem alistGet?_map_set_other {α β : Type} [DecidableEq α] (a a' : α) (b : β)
    (h : (a' == a) = false) :
    ∀ l : List (α × β),
      alistGet? (l.map (fun p => if (p.1 == a') = true then (a', b) else p)) a =
        alistGet? l a := by
  intro l
  induction l with
  | nil => rfl
  | cons p rest ih =>
    unfold alistGet? at ih ⊢
    rw [List.map_cons, List.find?_cons, List.find?_cons]
    by_cases hp : (p.1 == a') = true
    · have hpa : (p.1 == a) = false := by
        have hpe : p.1 = a' := by simpa using hp
        rw [hpe]
        exact h
      rw [if_pos hp]
      simp only [h, hpa]
      exact ih
    · rw [if_neg (by simp [hp])]
      by_cases hpa : (p.1 == a) = true
      · simp only [hpa]
      · simp only [hpa]
        exact ih

theorem alistGet?_append_set_other {α β : Type} [DecidableEq α] (a a' : α) (b : β)
    (h : (a' == a) = false) :
    ∀ l : List (α × β), alistGet? (l ++ [(a', b)]) a = alistGet? l a := by
  intro l
  induction l with
  | nil =>
    unfold alistGet?
    rw [List.nil_append, List.find?_cons]
    simp only [h]
  | cons p rest ih =>
    unfold alistGet? at ih ⊢
    rw [List.cons_append, List.find?_cons, List.find?_cons]
    by_cases hp : (p.1 == a) = true
    · simp only [hp]
    · simp only [hp]
      exact ih

theorem alistGet?_alistSet_other {α β : Type} [DecidableEq α] (l : List (α × β))
    (a a' : α) (b : β) (h : (a' == a) = false) :
    alistGet? (alistSet l a' b) a = alistGet? l a := by
  unfold alistSet
  by_cases hf : (l.find? (fun p => p.1 == a')).isSome
  · rw [if_pos hf]
    exact alistGet?_map_set_other a a' b h l
  · rw [if_neg hf]
    exact alistGet?_append_set_other a a' b h l

theorem getGraph_eq_alistGet {V : Type} (gs : Graphs V) (m : String) :
    getGraph gs m = alistGet? gs m := rfl

theorem unreachedCount_le_length {V : Type} [DecidableEq V] [Fintype V]
    (g : ModeGraph V) : unreachedCount g ≤ g.nodes.length := by
  unfold unreachedCount
  cases hn : g.nodes.map Prod.fst with
  | nil => exact Nat.zero_le _
  | cons h rest =>
    have h1 : ((h :: rest).filter (fun v => !(reachb g h v))).length ≤ (h :: rest).length :=
      List.length_filter_le _ _
    have h2 : (h :: rest).length = g.nodes.length := by
      rw [← hn, List.length_map]
    exact h2 ▸ h1

theorem ensureConnected_nodes {V : Type} [DecidableEq V] [Fintype V]
    (dist : V → V → ℚ) (speed : ℚ) :
    ∀ (fuel : ℕ) (g : ModeGraph V), (ensureConnected dist speed fuel g).nodes = g.nodes := by
  intro fuel
  induction fuel with
  | zero => intro g; rfl
  | succ fuel ih =>
    intro g
    unfold ensureConnected
    by_cases hcon : isWeaklyConnectedB g = true
    · rw [if_pos hcon]
    · rw [if_neg hcon]
      cases hn : g.nodes.map Prod.fst with
      | nil => rfl
      | cons h rest =>
        cases hbest : bestConnectorPair g dist h with
        | none => simp only [hbest]
        | some pr =>
          obtain ⟨s, t⟩ := pr
          simp only [hbest]
          rw [ih, addConnectorPair_nodes]

theorem walk_stays_closed {V : Type} (G : SimpleGraph V) (S : V → Bool)
    (hclosed : ∀ a b : V, S a = true → G.Adj a b → S b = true) :
    ∀ {u v : V}, G.Walk u v → S u = true → S v = true := by
  intro u v w
  induction w with
  | nil => exact id
  | cons hadj _ ih => intro hu; exact ih (hclosed _ _ hu hadj)

theorem walkingBaseGraph_nodes {V : Type} [DecidableEq V] (hav : ℚ → ℚ → ℚ → ℚ → ℚ)
    (walkSpeed : ℚ) (payload : List (V × NodeData)) (base : Graphs V) :
    (walkingBaseGraph hav walkSpeed payload base).nodes = payload := rfl

theorem bikeBaseGraph_nodes {V : Type} (walkSpeed bikeSpeed : ℚ) (acc : V → Bool)
    (walking : ModeGraph V) :
    (bikeBaseGraph walkSpeed bikeSpeed acc walking).nodes = walking.nodes := rfl

/-- **C2** (amended).  After `build_graphs` completes, the walking graph and
the bike graph are weakly connected: `_build_walking_graph` and
`_refresh_bike_graph` end with the `_ensure_connected` connector-edge repair
loop, which terminates on a weakly connected graph whenever every stop id is
listed in the feed and distinct stops sit at nonzero haversine distance.  The
transit mode graphs of `_build_transit_graphs` receive no such repair and need
not be weakly connected (see `transit_graph_not_weakly_connected`). -/
theorem walking_and_bike_graphs_weakly_connected {V : Type} [DecidableEq V] [Fintype V]
    (hav : ℚ → ℚ → ℚ → ℚ → ℚ) (walkSpeed bikeSpeed : ℚ) (acc : V → Bool) (feed : Feed V)
    (hnodes : ∀ v : V, v ∈ (nodesPayload feed).map Prod.fst)
    (hdist : ∀ u v : V, u ≠ v → ¬ nodeDistance hav (nodesPayload feed) u v = 0) :
    (∃ W, getGraph (buildGraphsSync hav walkSpeed bikeSpeed acc feed) "walking" = some W ∧
        (toSimple W).Preconnected) ∧
    (∃ B, getGraph (buildGraphsSync hav walkSpeed bikeSpeed acc feed) "bike" = some B ∧
        (toSimple B).Preconnected) := by
  have hWpre : (toSimple (buildWalkingGraph hav walkSpeed (nodesPayload feed)
      (buildTransitGraphs feed))).Preconnected := by
    unfold buildWalkingGraph
    apply ensureConnected_preconnected
    · intro v
      rw [walkingBaseGraph_nodes]
      exact hnodes v
    · exact hdist
    · exact unreachedCount_le_length _
  have hwnodes : (buildWalkingGraph hav walkSpeed (nodesPayload feed)
      (buildTransitGraphs feed)).nodes = nodesPayload feed := by
    unfold buildWalkingGraph
    rw [ensureConnected_nodes, walkingBaseGraph_nodes]
  have hBpre : (toSimple (refreshBikeGraph hav walkSpeed bikeSpeed acc
      (buildWalkingGraph hav walkSpeed (nodesPayload feed) (buildTransitGraphs feed)))).Preconnected := by
    unfold refreshBikeGraph
    rw [hwnodes]
    apply ensureConnected_preconnected
    · intro v
      rw [bikeBaseGraph_nodes, hwnodes]
      exact hnodes v
    · exact hdist
    · have h1 := unreachedCount_le_length (bikeBaseGraph walkSpeed bikeSpeed acc
        (buildWalkingGraph hav walkSpeed (nodesPayload feed) (buildTransitGraphs feed)))
      rw [bikeBaseGraph_nodes, hwnodes] at h1
      exact h1
  refine ⟨⟨_, ?_, hWpre⟩, ⟨_, ?_, hBpre⟩⟩
  · unfold buildGraphsSync
    rw [getGraph_eq_alistGet, alistGet?_alistSet_other _ _ _ _ (by simp),
      alistGet?_alistSet_self]
  · unfold buildGraphsSync
    rw [getGraph_eq_alistGet, alistGet?_alistSet_self]

/-- A constant positive stand-in for the haversine distance. -/
def hav1 : ℚ → ℚ → ℚ → ℚ → ℚ := fun _ _ _ _ => 1

/-- A two-stop feed with no trips at all: the walking and bike graphs are
still repaired into weakly connected graphs. -/
def c2WitnessFeed : Feed (Fin 2) :=
  { stops := [⟨0, 50, 19⟩, ⟨1, 51, 20⟩], stop_times := [], trips := [], routes := [] }

/-- Witness for `walking_and_bike_graphs_weakly_connected` at a concrete
feed. -/
theorem walking_and_bike_graphs_weakly_connected_witness :
    (∀ v : Fin 2, v ∈ (nodesPayload c2WitnessFeed).map Prod.fst) ∧
    (∀ u v : Fin 2, u ≠ v → ¬ nodeDistance hav1 (nodesPayload c2WitnessFeed) u v = 0) ∧
    ((∃ W, getGraph (buildGraphsSync hav1 5 15 (fun _ => false) c2WitnessFeed) "walking" =
        some W ∧ (toSimple W).Preconnected) ∧
     (∃ B, getGraph (buildGraphsSync hav1 5 15 (fun _ => false) c2WitnessFeed) "bike" =
        some B ∧ (toSimple B).Preconnected)) :=
  ⟨by decide, by decide,
    walking_and_bike_graphs_weakly_connected hav1 5 15 (fun _ => false) c2WitnessFeed
      (by decide) (by decide)⟩

/-- A three-stop feed whose single bus trip covers only the first two stops;
the third stop is a node of the bus graph but touches no bus edge. -/
def c2Feed : Feed (Fin 3) :=
  { stops := [⟨0, 50, 19⟩, ⟨1, 51, 20⟩, ⟨2, 52, 21⟩],
    stop_times := [⟨"t1", 0, 1, 0⟩, ⟨"t1", 1, 2, 60⟩],
    trips := [⟨"t1", "r1"⟩],
    routes := [⟨"r1", 3⟩] }

/-- The bus graph the builder produces from `c2Feed`. -/
def c2BusGraph : ModeGraph (Fin 3) :=
  { mode := "bus",
    nodes := [(0, ⟨50, 19⟩), (1, ⟨51, 20⟩), (2, ⟨52, 21⟩)],
    edges := [⟨0, 1, "t1", ⟨60, 60, none, none, false⟩⟩] }

/-- Counterexample to C2 as stated: the transit mode graphs are **not**
repaired.  `_build_transit_graphs` adds every stop of the feed as a node of
every mode graph but only trip segments as edges, and no `_ensure_connected`
call follows, so a stop served by no trip of a mode leaves that mode graph
weakly disconnected after `build_graphs`. -/
theorem transit_graph_not_weakly_connected :
    ∃ G : ModeGraph (Fin 3),
      getGraph (buildGraphsSync hav0 5 15 (fun _ => false) c2Feed) "bus" = some G ∧
      ¬ (toSimple G).Preconnected := by
  have hbase : buildTransitGraphs c2Feed = [("bus", c2BusGraph)] := by
    norm_num [buildTransitGraphs, presentRouteTypes, segmentRows, segmentRouteType,
      consecutivePairs, buildModeGraph, addEdgeKeyed, transitEdgeData, routeTypeLabel,
      ROUTE_TYPE_LABELS, alistGet?, nodesPayload, c2Feed, c2BusGraph, List.insertionSort,
      List.orderedInsert, stopTimeLE, List.dedup_nil, List.dedup_cons_of_not_mem]
  refine ⟨c2BusGraph, ?_, ?_⟩
  · unfold buildGraphsSync
    rw [getGraph_eq_alistGet, alistGet?_alistSet_other _ _ _ _ (by simp),
      alistGet?_alistSet_other _ _ _ _ (by simp), hbase]
    simp [alistGet?]
  · intro hpre
    obtain ⟨w⟩ := hpre 0 2
    have h2 := walk_stays_closed (toSimple c2BusGraph) (fun v => decide (v ≠ 2))
      (by decide) w (by decide)
    exact absurd h2 (by decide)

/-- The bus graph stored in `demoGraphs`, as a standalone value. -/
def demoBus : ModeGraph String :=
  { mode := "bus",
    nodes := [("A", ⟨50, 19⟩), ("B", ⟨51, 20⟩)],
    edges := [⟨"A", "B", "trip1", { weight := 100, default_weight := 100 }⟩] }

/-- The single edge of `demoGraphs`. -/
def demoEdge : Edge String := ⟨"A", "B", "trip1", { weight := 100, default_weight := 100 }⟩

/-- The edge view `get_closest_transit_edge` resolves on `demoGraphs`. -/
def demoEv : EdgeView String := ⟨"bus", "A", "B", "trip1", { weight := 100, default_weight := 100 }⟩

/-- Witness for `edge_positivity_invariant` at `demoGraphs`. -/
theorem edge_positivity_invariant_witness :
    (∀ p ∈ demoGraphs, ∀ x ∈ p.2.edges, 0 < x.data.weight ∧ 0 < x.data.default_weight) ∧
    ((∀ (mode : String) (s t : String) (key? : Option String) (weight? speed? : Option ℚ)
        (gs' : Graphs String) (view : EdgeView String),
        updateEdge demoGraphs mode s t key? weight? speed? = .ok (gs', view) →
        (∀ p ∈ gs', ∀ x ∈ p.2.edges, 0 < x.data.weight ∧ 0 < x.data.default_weight) ∧
        (∀ (m : String) (s' t' : String) (k' : String),
          defaultWeightAt gs' m s' t' k' = defaultWeightAt demoGraphs m s' t' k')) ∧
     (∀ (hav : ℚ → ℚ → ℚ → ℚ → ℚ) (lat lon w : ℚ) (gs' : Graphs String)
        (view : EdgeView String),
        updateClosestTransitEdge hav demoGraphs lat lon w = .ok (gs', view) →
        (∀ p ∈ gs', ∀ x ∈ p.2.edges, 0 < x.data.weight ∧ 0 < x.data.default_weight) ∧
        (∀ (m : String) (s' t' : String) (k' : String),
          defaultWeightAt gs' m s' t' k' = defaultWeightAt demoGraphs m s' t' k'))) :=
  ⟨by decide, edge_positivity_invariant demoGraphs (by decide)⟩

/-- Witness for `update_edge_argument_contract` at `demoGraphs`. -/
theorem update_edge_argument_contract_witness :
    getGraph demoGraphs "bus" = some demoBus ∧
    resolveCandidate demoBus "A" "B" none = some demoEdge ∧
    ((demoEdge.data.distance_km = none → ∀ (weight? : Option ℚ) (sp : ℚ),
        updateEdge demoGraphs "bus" "A" "B" none weight? (some sp) = .error .missingDistance) ∧
     (∀ w : ℚ, w ≤ 0 →
        updateEdge demoGraphs "bus" "A" "B" none (some w) none = .error .nonpositiveWeight) ∧
     (∀ (dk sp : ℚ) (weight? : Option ℚ), demoEdge.data.distance_km = some dk →
        travelTimeSeconds dk sp ≤ 0 →
        updateEdge demoGraphs "bus" "A" "B" none weight? (some sp) = .error .nonpositiveWeight) ∧
     (updateEdge demoGraphs "bus" "A" "B" none none none =
          .ok (setGraph demoGraphs "bus" demoBus, ⟨"bus", "A", "B", demoEdge.key, demoEdge.data⟩) ∧
        ∀ (m : String) (s' t' : String) (k' : String),
          weightAt (setGraph demoGraphs "bus" demoBus) m s' t' k' = weightAt demoGraphs m s' t' k') ∧
     (∀ w : ℚ, 0 < w → ∃ (gs' : Graphs String) (view : EdgeView String),
        updateEdge demoGraphs "bus" "A" "B" none (some w) none = .ok (gs', view) ∧
        view.data.weight = w ∧ weightAt gs' "bus" "A" "B" demoEdge.key = some w) ∧
     (∀ (dk sp : ℚ) (weight? : Option ℚ), demoEdge.data.distance_km = some dk →
        0 < travelTimeSeconds dk sp → ∃ (gs' : Graphs String) (view : EdgeView String),
        updateEdge demoGraphs "bus" "A" "B" none weight? (some sp) = .ok (gs', view) ∧
        view.data.weight = travelTimeSeconds dk sp ∧
        weightAt gs' "bus" "A" "B" demoEdge.key = some (travelTimeSeconds dk sp))) :=
  ⟨by decide, by decide,
    update_edge_argument_contract demoGraphs "bus" "A" "B" none demoBus demoEdge
      (by decide) (by decide)⟩

/-- Witness for `incident_revert_restores_captured_baseline`:
`Traffic ↦ 2` mapping, one Traffic incident over `demoGraphs`. -/
theorem incident_revert_restores_captured_baseline_witness :
    alistGet? [("Traffic", (2:ℚ))] "Traffic" = some 2 ∧
    (1:ℚ) < 2 ∧
    getClosestTransitEdge hav0 demoGraphs 0 0 = some (demoEv, 0) ∧
    0 < demoEv.data.weight ∧
    (∃ (gs1 gs2 : Graphs String) (st1 st2 : ImpactState String),
      applyIncidentImpacts [("Traffic", 2)] hav0
          [⟨some "Traffic", some 0, some 0, false, some 10⟩] demoGraphs
          cleanImpactState = (gs1, st1) ∧
      weightAt gs1 demoEv.mode demoEv.src demoEv.tgt demoEv.key =
        some (demoEv.data.weight * 2) ∧
      alistGet? st1.edge_baselines (demoEv.mode, demoEv.src, demoEv.tgt, demoEv.key) =
        some demoEv.data.weight ∧
      applyIncidentImpacts [("Traffic", 2)] hav0 [] gs1 st1 = (gs2, st2) ∧
      weightAt gs2 demoEv.mode demoEv.src demoEv.tgt demoEv.key = some demoEv.data.weight ∧
      alistGet? st2.current_multipliers (demoEv.mode, demoEv.src, demoEv.tgt, demoEv.key) =
        some 1 ∧
      st2.modified_edges = [] ∧
      (defaultWeightAt demoGraphs demoEv.mode demoEv.src demoEv.tgt demoEv.key =
          some demoEv.data.weight →
        weightAt gs2 demoEv.mode demoEv.src demoEv.tgt demoEv.key =
          defaultWeightAt demoGraphs demoEv.mode demoEv.src demoEv.tgt demoEv.key)) :=
  ⟨by decide, by decide, rfl, by decide,
    incident_revert_restores_captured_baseline [("Traffic", 2)] hav0 demoGraphs
      "Traffic" 2 0 0 false (some 10) demoEv 0 (by decide) (by decide) rfl (by decide)⟩

/-- Witness for `plan_route_unmodified_no_incident` at `demoGraphs`. -/
theorem plan_route_unmodified_no_incident_witness :
    getGraph demoGraphs "bus" = some demoBus ∧
    (∀ e ∈ demoBus.edges, e.data.weight = e.data.default_weight) ∧
    (demoBus.nodes.map Prod.fst).contains "A" = true ∧
    (demoBus.nodes.map Prod.fst).contains "B" = true ∧
    shortestPathDefault demoBus "A" "B" = some ["A", "B"] ∧
    (∃ r : RoutePlan String, planRouteWithIncidents demoGraphs "bus" "A" "B" = .ok r ∧
      r.incident_detected = false ∧ r.suggested_path = none ∧ r.message = none ∧
      r.default_path.total_current_weight = r.default_path.total_default_weight) :=
  ⟨by decide, by decide, by decide, by decide, by decide,
    plan_route_unmodified_no_incident demoGraphs "bus" "A" "B" demoBus ["A", "B"]
      (by decide) (by decide) (by decide) (by decide) (by decide)⟩

/-- A Facebook post pointing at the `demoGraphs` edge. -/
def demoPost : FBPost String := { latitude := some 0, longitude := some 0 }

/-- Witness for `facebook_approve_revoke_roundtrip` at `demoGraphs`. -/
theorem facebook_approve_revoke_roundtrip_witness :
    demoPost.latitude = some 0 ∧
    demoPost.longitude = some 0 ∧
    getClosestTransitEdge hav0 demoGraphs 0 0 = some (demoEv, 0) ∧
    0 < demoEv.data.weight ∧
    (∃ (gs' gs'' : Graphs String) (post' post'' : FBPost String),
      approvePost hav0 demoGraphs demoPost = some (gs', post') ∧
      weightAt gs' demoEv.mode demoEv.src demoEv.tgt demoEv.key =
        some (demoEv.data.weight * 2) ∧
      post'.edge_weight_before = some demoEv.data.weight ∧
      post'.approved = true ∧
      revokePost gs' post' = (gs'', post'') ∧
      weightAt gs'' demoEv.mode demoEv.src demoEv.tgt demoEv.key = some demoEv.data.weight ∧
      post''.approved = false ∧
      (∀ (m : String) (s' t' : String) (k' : String),
        defaultWeightAt gs'' m s' t' k' = defaultWeightAt demoGraphs m s' t' k')) :=
  ⟨rfl, rfl, rfl, by decide,
    facebook_approve_revoke_roundtrip hav0 demoGraphs demoPost 0 0 demoEv 0
      rfl rfl rfl (by decide)⟩

end TransportModel
